import Mathlib

/-!
# apk8s/ok: the status server of `cmd/ok.go`

A shallow embedding of `cmd/ok.go` and the properties of its configuration
resolution, its identity/counter record and its `GET /` handler.

* A Go string is a sequence of bytes, not necessarily valid UTF-8. Source
  literals are written as text and stand for their UTF-8 encoding.
* The process environment is a list of `KEY=VALUE` entries; `os.Getenv`
  reads the first entry of a key and yields the empty string when there is none.
* The command line is represented by what `flag.Parse` leaves behind for the
  four registered flags: the value given to each flag, if the flag occurs.
* Go `int` is the 64-bit two's complement integer of the 64-bit targets;
  `Count++` wraps.
* The handler body is kept as the four statements of the source, run by a
  small executor that implements `defer` (deferred calls run when the function
  returns, last deferred first).
-/

namespace OkServer

/-! ## Go strings -/

/-- A Go `string`: any sequence of bytes. -/
abbrev GoString := List UInt8

/-- The bytes of a text: its UTF-8 encoding, as in a Go string literal. -/
def utf8 (s : String) : GoString :=
  s.data.flatMap String.utf8EncodeChar

/-- A text used where a Go string is expected stands for its bytes. -/
instance : Coe String GoString := ⟨utf8⟩

/-! ## Environment and `getEnv` -/

/-- The process environment: `KEY=VALUE` entries in order. -/
abbrev Env := List (GoString × GoString)

/-- Go `os.Getenv`: the value of the first entry for `key`, the empty string
when the variable is not present. -/
def Getenv (env : Env) (key : GoString) : GoString :=
  (env.lookup key).getD ""

/-- Source `getEnv` (ok.go 129-136): the fallback is returned when the value
read by `os.Getenv` has length zero. -/
def getEnv (env : Env) (key fallback : GoString) : GoString :=
  let value := Getenv env key
  if value.length = 0 then fallback else value

/-! ## Package-level variables (ok.go 17-28) -/

def Version : GoString := "0.0.0"

def ipEnv (env : Env) : GoString := getEnv env "IP" "0.0.0.0"

def portEnv (env : Env) : GoString := getEnv env "PORT" "8080"

def metricsIpEnv (env : Env) : GoString := getEnv env "METRICS_IP" (ipEnv env)

def metricsPortEnv (env : Env) : GoString := getEnv env "METRICS_PORT" "2112"

def nodeName (env : Env) : GoString := getEnv env "NODE_NAME" ""

def podName (env : Env) : GoString := getEnv env "POD_NAME" ""

def podIP (env : Env) : GoString := getEnv env "POD_IP" ""

/-- Source variable `namespace` (a reserved word here, hence the suffix). -/
def namespaceVar (env : Env) : GoString := getEnv env "NAMESPACE" ""

def serviceAccount (env : Env) : GoString := getEnv env "SERVICE_ACCOUNT" ""

/-! ## Flags (ok.go 44-51) -/

/-- What `flag.Parse` found on the command line for the four registered
flags: the value given to each flag, `none` when the flag does not occur. -/
structure CommandLine where
  ip : Option GoString
  port : Option GoString
  metricsPort : Option GoString
  metricsIP : Option GoString
deriving DecidableEq

/-- A command line without any flag. -/
def noFlags : CommandLine := ⟨none, none, none, none⟩

/-- Go `flag.String(name, value, usage)` read after `flag.Parse()`: the value
given on the command line, else the default `value`. -/
def flagString (given : Option GoString) (value : GoString) : GoString :=
  given.getD value

/-- The four flag values of `main` after `flag.Parse()`. -/
structure Flags where
  ip : GoString
  port : GoString
  metricsPort : GoString
  metricsIp : GoString
deriving DecidableEq

/-- Source `main`, lines 44-51. -/
def parseFlags (env : Env) (cl : CommandLine) : Flags :=
  { ip := flagString cl.ip (ipEnv env)
    port := flagString cl.port (portEnv env)
    metricsPort := flagString cl.metricsPort (metricsPortEnv env)
    metricsIp := flagString cl.metricsIP (metricsIpEnv env) }

/-- Address handed to `http.ListenAndServe` for the metrics server (line 72). -/
def metricsAddr (env : Env) (cl : CommandLine) : GoString :=
  (parseFlags env cl).metricsIp ++ ":" ++ (parseFlags env cl).metricsPort

/-- The `Addr` of the status `http.Server` (line 114). -/
def serverAddr (env : Env) (cl : CommandLine) : GoString :=
  (parseFlags env cl).ip ++ ":" ++ (parseFlags env cl).port

/-! ### The resolution order in the words of the specification -/

/-- Resolution of one setting as the specification words it: the flag when
given, else the environment variable when set, else the default. -/
def specResolve (given envValue : Option GoString) (dflt : GoString) : GoString :=
  match given with
  | some v => v
  | none =>
    match envValue with
    | some v => v
    | none => dflt

/-- The four settings as the specification words them; the metrics IP
defaults to the resolved server IP. -/
def specFlags (env : Env) (cl : CommandLine) : Flags :=
  let ip := specResolve cl.ip (env.lookup (utf8 "IP")) "0.0.0.0"
  { ip := ip
    port := specResolve cl.port (env.lookup (utf8 "PORT")) "8080"
    metricsPort := specResolve cl.metricsPort (env.lookup (utf8 "METRICS_PORT")) "2112"
    metricsIp := specResolve cl.metricsIP (env.lookup (utf8 "METRICS_IP")) ip }

/-! ## UTF-8 as `unicode/utf8` and `encoding/json` treat it -/

/-- Go `utf8.RuneError`, the replacement character U+FFFD. -/
def RuneError : Nat := 0xFFFD

/-- Go `unicode/utf8`, table `first`: information on a leading byte. `0xF0`
marks ASCII and `0xF1` a byte that starts no sequence; otherwise the low
three bits are the length of the sequence and the high four bits select the
range accepted for the second byte. -/
def first (b : Nat) : Nat :=
  if b < 0x80 then 0xF0
  else if b < 0xC2 then 0xF1
  else if b < 0xE0 then 0x02
  else if b = 0xE0 then 0x13
  else if b < 0xED then 0x03
  else if b = 0xED then 0x23
  else if b < 0xF0 then 0x03
  else if b = 0xF0 then 0x34
  else if b < 0xF4 then 0x04
  else if b = 0xF4 then 0x44
  else 0xF1

/-- Go `unicode/utf8`, table `acceptRanges`: lowest and highest second byte. -/
def acceptRanges (i : Nat) : Nat × Nat :=
  match i with
  | 0 => (0x80, 0xBF)
  | 1 => (0xA0, 0xBF)
  | 2 => (0x80, 0x9F)
  | 3 => (0x90, 0xBF)
  | 4 => (0x80, 0x8F)
  | _ => (0, 0)

/-- Go `utf8.DecodeRuneInString`: the first rune of `s` and its width in
bytes; `(RuneError, 1)` for an encoding that is invalid or cut short,
`(RuneError, 0)` for the empty string. Bit masks and shifts are written as
remainders and products. -/
def DecodeRuneInString (s : GoString) : Nat × Nat :=
  let n := s.length
  if n < 1 then (RuneError, 0)
  else
    let s0 := (s.getD 0 0).toNat
    let x := first s0
    if x ≥ 0xF0 then (if x % 2 = 0 then s0 else RuneError, 1)
    else
      let sz := x % 8
      let accept := acceptRanges (x / 16)
      if n < sz then (RuneError, 1)
      else
        let s1 := (s.getD 1 0).toNat
        if s1 < accept.1 ∨ accept.2 < s1 then (RuneError, 1)
        else if sz ≤ 2 then (s0 % 32 * 64 + s1 % 64, 2)
        else
          let s2 := (s.getD 2 0).toNat
          if s2 < 0x80 ∨ 0xBF < s2 then (RuneError, 1)
          else if sz ≤ 3 then (s0 % 16 * 4096 + s1 % 64 * 64 + s2 % 64, 3)
          else
            let s3 := (s.getD 3 0).toNat
            if s3 < 0x80 ∨ 0xBF < s3 then (RuneError, 1)
            else (s0 % 8 * 262144 + s1 % 64 * 4096 + s2 % 64 * 64 + s3 % 64, 4)

/-- The loop of Go `encoding/json` `appendString`, reduced to the value of
the JSON string it writes (escapes denote the character they escape), given
as UTF-8. `pending` counts the remaining bytes of a sequence already accepted,
which are copied. Otherwise an ASCII byte is copied; a byte at which
`DecodeRuneInString`, applied to at most `utf8.UTFMax = 4` bytes, reports
`RuneError` with width 1 is replaced by U+FFFD; any other byte starts an
accepted sequence. -/
def appendStringFrom : Nat → GoString → GoString
  | _, [] => []
  | pending + 1, b :: rest => b :: appendStringFrom pending rest
  | 0, b :: rest =>
    if b.toNat < 0x80 then b :: appendStringFrom 0 rest
    else
      let d := DecodeRuneInString ((b :: rest).take 4)
      if d.1 = RuneError ∧ d.2 = 1 then
        [0xEF, 0xBF, 0xBD] ++ appendStringFrom 0 rest
      else b :: appendStringFrom (d.2 - 1) rest

/-- The value of the JSON string that `encoding/json` writes for a Go string. -/
def stringValue (s : GoString) : GoString :=
  appendStringFrom 0 s

/-- The byte is a continuation byte `80..BF`. -/
def isTail (b : UInt8) : Prop :=
  0x80 ≤ b.toNat ∧ b.toNat ≤ 0xBF

/-- Well-formed UTF-8 byte sequences, after the grammar of RFC 3629. -/
inductive ValidUTF8 : GoString → Prop where
  | nil : ValidUTF8 []
  | one (b : UInt8) (rest : GoString) :
      b.toNat < 0x80 → ValidUTF8 rest → ValidUTF8 (b :: rest)
  | two (b0 b1 : UInt8) (rest : GoString) :
      0xC2 ≤ b0.toNat → b0.toNat ≤ 0xDF → isTail b1 →
      ValidUTF8 rest → ValidUTF8 (b0 :: b1 :: rest)
  | three (b0 b1 b2 : UInt8) (rest : GoString) :
      (b0.toNat = 0xE0 ∧ 0xA0 ≤ b1.toNat ∧ b1.toNat ≤ 0xBF)
        ∨ (0xE1 ≤ b0.toNat ∧ b0.toNat ≤ 0xEC ∧ isTail b1)
        ∨ (b0.toNat = 0xED ∧ 0x80 ≤ b1.toNat ∧ b1.toNat ≤ 0x9F)
        ∨ (0xEE ≤ b0.toNat ∧ b0.toNat ≤ 0xEF ∧ isTail b1) →
      isTail b2 → ValidUTF8 rest → ValidUTF8 (b0 :: b1 :: b2 :: rest)
  | four (b0 b1 b2 b3 : UInt8) (rest : GoString) :
      (b0.toNat = 0xF0 ∧ 0x90 ≤ b1.toNat ∧ b1.toNat ≤ 0xBF)
        ∨ (0xF1 ≤ b0.toNat ∧ b0.toNat ≤ 0xF3 ∧ isTail b1)
        ∨ (b0.toNat = 0xF4 ∧ 0x80 ≤ b1.toNat ∧ b1.toNat ≤ 0x8F) →
      isTail b2 → isTail b3 → ValidUTF8 rest →
      ValidUTF8 (b0 :: b1 :: b2 :: b3 :: rest)

/-- The entries of `first` for the bytes that are not ASCII: `Lead n x` lists
the ranges of `n` with their entry `x`. -/
inductive Lead : Nat → Nat → Prop where
  | invalid (n : Nat) : (0x80 ≤ n ∧ n < 0xC2) ∨ 0xF5 ≤ n → Lead n 0xF1
  | s1 (n : Nat) : 0xC2 ≤ n → n ≤ 0xDF → Lead n 0x02
  | s2 (n : Nat) : n = 0xE0 → Lead n 0x13
  | s3 (n : Nat) : (0xE1 ≤ n ∧ n ≤ 0xEC) ∨ (0xEE ≤ n ∧ n ≤ 0xEF) → Lead n 0x03
  | s4 (n : Nat) : n = 0xED → Lead n 0x23
  | s5 (n : Nat) : n = 0xF0 → Lead n 0x34
  | s6 (n : Nat) : 0xF1 ≤ n → n ≤ 0xF3 → Lead n 0x04
  | s7 (n : Nat) : n = 0xF4 → Lead n 0x44

/-! ## The identity/counter record (ok.go 30-40) -/

/-- Go `sync.Mutex`, reduced to whether it is held. Its fields are unexported. -/
structure sync.Mutex where
  locked : Bool
deriving DecidableEq

/-- Source struct `Ok`: the embedded mutex and the seven tagged fields. -/
structure Ok where
  Mutex : sync.Mutex
  Version : GoString
  NodeName : GoString
  PodName : GoString
  PodIP : GoString
  Namespace : GoString
  ServiceAccount : GoString
  Count : Int
deriving DecidableEq

/-- Go `int` arithmetic on the 64-bit targets: the result is reduced to the
two's complement range `[-2^63, 2^63)`. -/
def wrapInt (x : Int) : Int :=
  (x + 2 ^ 63) % 2 ^ 64 - 2 ^ 63

/-- A JSON scalar of the response body. A string is given by the UTF-8
encoding of its value. -/
inductive JsonValue where
  | str (s : GoString)
  | num (n : Int)
deriving DecidableEq

/-- A JSON object: its members in the order they are written. -/
abbrev JsonObject := List (String × JsonValue)

/-- The kinds of field values that occur in `Ok`, as reflection shows them. -/
inductive FieldValue where
  | string (s : GoString)
  | int (n : Int)
deriving DecidableEq

/-- A struct field as reflection shows it: its Go name, its `json` tag when it
has one, and its value. -/
structure Field where
  name : String
  tag : Option String
  value : FieldValue
deriving DecidableEq

/-- A member of a struct declaration: a named field, or an embedded struct
with its own fields. -/
inductive Member where
  | field (f : Field)
  | embedded (typeName : String) (fields : List Field)
deriving DecidableEq

/-- The declaration of `sync.Mutex`: `state int32` and `sema uint32`. -/
def sync.Mutex.fields (m : sync.Mutex) : List Field :=
  [ ⟨"state", none, .int (if m.locked then 1 else 0)⟩,
    ⟨"sema", none, .int 0⟩ ]

/-- The declaration of `Ok` (lines 31-40), member by member. -/
def Ok.members (ok : Ok) : List Member :=
  [ .embedded "Mutex" ok.Mutex.fields,
    .field ⟨"Version", some "version", .string ok.Version⟩,
    .field ⟨"NodeName", some "node_name", .string ok.NodeName⟩,
    .field ⟨"PodName", some "pod_name", .string ok.PodName⟩,
    .field ⟨"PodIP", some "pod_ip", .string ok.PodIP⟩,
    .field ⟨"Namespace", some "namespace", .string ok.Namespace⟩,
    .field ⟨"ServiceAccount", some "service_account", .string ok.ServiceAccount⟩,
    .field ⟨"Count", some "count", .int ok.Count⟩ ]

/-- A Go identifier is exported when it starts with an upper-case letter. -/
def exported (name : String) : Bool :=
  name.front.isUpper

/-- Go `encoding/json` on one field: an unexported field and a field tagged
`-` are left out; the member is named by the tag, else by the field name; a
string is written with the value `stringValue` gives, an integer as a number. -/
def encodeField (f : Field) : Option (String × JsonValue) :=
  if !exported f.name then none
  else if f.tag = some "-" then none
  else
    some (f.tag.getD f.name,
      match f.value with
      | .string s => .str (stringValue s)
      | .int n => .num n)

/-- Go `encoding/json` on a struct whose fields have distinct JSON names:
the members in declaration order, the exported fields of an embedded struct
standing in its place. -/
def encodeStruct (ms : List Member) : JsonObject :=
  ms.flatMap (fun m =>
    match m with
    | .field f => (encodeField f).toList
    | .embedded _ fs => fs.filterMap encodeField)

/-- The JSON encoding of an `Ok`, as `c.JSON` writes it. -/
def marshal (ok : Ok) : JsonObject :=
  encodeStruct ok.members

/-- An HTTP response of the status server: a JSON reply written by `c.JSON`,
or the routing layer's own reply to a request no route matches. -/
inductive Response where
  | JSON (code : Nat) (obj : JsonObject)
  | noRoute
deriving DecidableEq

/-- The record built in `main` (lines 94-102); the mutex is its zero value. -/
def newOk (env : Env) : Ok :=
  { Mutex := ⟨false⟩
    Version := Version
    Namespace := namespaceVar env
    NodeName := nodeName env
    PodName := podName env
    PodIP := podIP env
    ServiceAccount := serviceAccount env
    Count := 0 }

/-! ## The `GET /` handler (ok.go 105-111) -/

/-- The calls the handler makes. -/
inductive Call where
  | Lock
  | Unlock
  | IncCount
  | JSON (code : Nat)
deriving DecidableEq

/-- A statement of the handler body: a call, or a deferred call. -/
inductive Stmt where
  | call (c : Call)
  | defer (c : Call)
deriving DecidableEq

/-- What one handler invocation does, in order. -/
inductive Event where
  | acquire
  | increment
  | write (r : Response)
  | release
deriving DecidableEq

/-- State of one handler invocation: the shared record, the response written
to the `gin.Context` so far, and the events so far. -/
structure Ctx where
  ok : Ok
  written : Option Response
  trace : List Event
deriving DecidableEq

/-- One call. `Lock` on a held mutex does not return in a run without other
goroutines; `Unlock` of a free mutex is a fatal error. -/
def Call.run : Call → Ctx → Option Ctx
  | .Lock, σ =>
    if σ.ok.Mutex.locked then none
    else some { σ with ok := { σ.ok with Mutex := ⟨true⟩ }, trace := σ.trace ++ [.acquire] }
  | .Unlock, σ =>
    if σ.ok.Mutex.locked then
      some { σ with ok := { σ.ok with Mutex := ⟨false⟩ }, trace := σ.trace ++ [.release] }
    else none
  | .IncCount, σ =>
    some { σ with ok := { σ.ok with Count := wrapInt (σ.ok.Count + 1) },
                  trace := σ.trace ++ [.increment] }
  | .JSON code, σ =>
    let r := Response.JSON code (marshal σ.ok)
    some { σ with written := some r, trace := σ.trace ++ [.write r] }

/-- The deferred calls, run at function return, last deferred first (the list
holds the most recently deferred call at its head). -/
def runDeferred : List Call → Ctx → Option Ctx
  | [], σ => some σ
  | c :: rest, σ => (c.run σ).bind (runDeferred rest)

/-- A function body: statements in order, then the deferred calls. -/
def exec : List Stmt → List Call → Ctx → Option Ctx
  | [], deferred, σ => runDeferred deferred σ
  | .call c :: rest, deferred, σ => (c.run σ).bind (exec rest deferred)
  | .defer c :: rest, deferred, σ => exec rest (c :: deferred) σ

/-- The body of the handler, statement by statement (lines 106-110). -/
def handlerBody : List Stmt :=
  [ .call .Lock,
    .defer .Unlock,
    .call .IncCount,
    .call (.JSON 200) ]

/-- One invocation of the `GET /` handler on the record. -/
def handlerCtx (ok : Ok) : Option Ctx :=
  exec handlerBody [] { ok := ok, written := none, trace := [] }

/-- The handler as a state transformer: the record afterwards and the
response written (the body writes exactly one). There is no result when the
invocation does not return. -/
def handler (ok : Ok) : Option (Ok × Response) :=
  match handlerCtx ok with
  | some σ =>
    match σ.written with
    | some r => some (σ.ok, r)
    | none => none
  | none => none

/-- The ordered events of one handler invocation. -/
def handlerTrace (ok : Ok) : Option (List Event) :=
  (handlerCtx ok).map (fun σ => σ.trace)

/-! ## Routing (ok.go 87-111) -/

/-- An HTTP request as the router sees it: its method and the path of its
URL. -/
structure Request where
  method : GoString
  path : GoString
deriving DecidableEq

/-- The request `GET /`. -/
def getRoot : Request := ⟨"GET", "/"⟩

/-- The status server on one request: the engine has the single route
`r.GET("/", handler)`; every other request is answered by the routing layer,
which has no access to the record. -/
def serve (ok : Ok) (req : Request) : Option (Ok × Response) :=
  if req.method = "GET" ∧ req.path = "/" then handler ok
  else some (ok, .noRoute)

/-- Requests handled one after another. -/
def serveAll : Ok → List Request → Option (Ok × List Response)
  | ok, [] => some (ok, [])
  | ok, req :: rest =>
    match serve ok req with
    | none => none
    | some (ok1, r) =>
      match serveAll ok1 rest with
      | none => none
      | some (ok2, rs) => some (ok2, r :: rs)

/-- The `count` member of a response body, when it has one. -/
def Response.count : Response → Option Int
  | .JSON _ obj =>
    match obj.lookup "count" with
    | some (.num n) => some n
    | _ => none
  | .noRoute => none

/-- The string member `key` of a response body, when it has one. -/
def Response.field (key : String) : Response → Option GoString
  | .JSON _ obj =>
    match obj.lookup key with
    | some (.str s) => some s
    | _ => none
  | .noRoute => none

/-- Position of the first event satisfying `p` in a trace (the length of the
trace when there is none). -/
def position (p : Event → Bool) (t : List Event) : Nat :=
  t.findIdx p

/-- Recognises the response-write event. -/
def Event.isWrite : Event → Bool
  | .write _ => true
  | _ => false

/-- Recognises the unlock event. -/
def Event.isRelease : Event → Bool
  | .release => true
  | _ => false

/-- The record after `Count++`. -/
def incremented (ok : Ok) : Ok :=
  { ok with Count := wrapInt (ok.Count + 1) }

/-- The record after `n` requests: `n` times `Count++`. -/
def incrementedBy (ok : Ok) (n : Nat) : Ok :=
  incremented^[n] ok

/-- Whether the mutex is held just before the event at index `i` of a trace
that starts with the mutex free. -/
def lockHeldAt (t : List Event) (i : Nat) : Bool :=
  (t.take i).foldl
    (fun held e =>
      match e with
      | .acquire => true
      | .release => false
      | _ => held)
    false

/-- The statement of sequential counting: `N` requests `GET /` handled one
after another on the record built at startup all return, their `count` values
are `1, 2, ..., N` in this order, and the record ends with `Count = N`. -/
def sequentialCounts (N : Nat) (env : Env) : Prop :=
  ∃ ok1 rs, serveAll (newOk env) (List.replicate N getRoot) = some (ok1, rs)
    ∧ rs.map Response.count = (List.range' 1 N).map (fun (k : Nat) => some (k : Int))
    ∧ ok1.Count = (N : Int)

/-- The statement that the unlock comes first: the invocation returns, its
trace holds a response-write event, and an unlock event stands before it. -/
def unlockBeforeWrite (ok : Ok) : Prop :=
  ∃ t, handlerTrace ok = some t
    ∧ position Event.isWrite t < t.length
    ∧ position Event.isRelease t < position Event.isWrite t

/-- The statement that the identity fields are stable: `n` requests `GET /`
handled one after another on the record built at startup are all answered, and
in every response `version` is the build version and `node_name`, `pod_name`,
`pod_ip`, `namespace`, `service_account` are the startup values of
`NODE_NAME`, `POD_NAME`, `POD_IP`, `NAMESPACE`, `SERVICE_ACCOUNT` (the empty
string when unset); and on every record the handler returns a record that
differs from it in no field other than `Count`. -/
def identityStable (env : Env) (n : Nat) : Prop :=
  (∃ ok1 rs, serveAll (newOk env) (List.replicate n getRoot) = some (ok1, rs)
    ∧ rs.length = n
    ∧ ∀ r ∈ rs,
        r.field "version" = some (utf8 "0.0.0")
        ∧ r.field "node_name" = some ((env.lookup (utf8 "NODE_NAME")).getD [])
        ∧ r.field "pod_name" = some ((env.lookup (utf8 "POD_NAME")).getD [])
        ∧ r.field "pod_ip" = some ((env.lookup (utf8 "POD_IP")).getD [])
        ∧ r.field "namespace" = some ((env.lookup (utf8 "NAMESPACE")).getD [])
        ∧ r.field "service_account"
            = some ((env.lookup (utf8 "SERVICE_ACCOUNT")).getD []))
  ∧ ∀ ok : Ok, ok.Mutex.locked = false →
      ∃ ok1 r, handler ok = some (ok1, r) ∧ ok1 = { ok with Count := ok1.Count }

/-- The statement on the shape of the response: the handler answers with
status 200 and a JSON object whose members are exactly `version`, `node_name`,
`pod_name`, `pod_ip`, `namespace`, `service_account`, `count` in this order,
the six strings being the fields of the record and `count` the record's `Count`
after the increment of a 64-bit integer. -/
def responseShape (ok : Ok) : Prop :=
  ∃ ok1 obj, handler ok = some (ok1, .JSON 200 obj)
    ∧ ok1.Count = (ok.Count + 1 + 2 ^ 63) % 2 ^ 64 - 2 ^ 63
    ∧ obj.map Prod.fst = ["version", "node_name", "pod_name", "pod_ip",
        "namespace", "service_account", "count"]
    ∧ obj = [ ("version", .str ok.Version),
              ("node_name", .str ok.NodeName),
              ("pod_name", .str ok.PodName),
              ("pod_ip", .str ok.PodIP),
              ("namespace", .str ok.Namespace),
              ("service_account", .str ok.ServiceAccount),
              ("count", .num ok1.Count) ]

/-! ## Requests handled concurrently -/

/-- A goroutine that runs the handler for one request: the statements it has
still to run, its deferred calls (most recent first) and the response it has
written. -/
structure Goroutine where
  body : List Stmt
  deferred : List Call
  written : Option Response
deriving DecidableEq

/-- One step of a goroutine on the shared record: the next statement of the
body, or, the body being over, the next deferred call. There is no step when
the call cannot proceed (`Lock` on a held mutex) and when the function has
returned. This is `exec`, one statement at a time. -/
def Goroutine.step (g : Goroutine) (ok : Ok) (trace : List Event) :
    Option (Goroutine × Ok × List Event) :=
  match g.body, g.deferred with
  | .call c :: rest, d =>
    (c.run ⟨ok, g.written, trace⟩).map (fun σ => (⟨rest, d, σ.written⟩, σ.ok, σ.trace))
  | .defer c :: rest, d => some (⟨rest, c :: d, g.written⟩, ok, trace)
  | [], c :: d =>
    (c.run ⟨ok, g.written, trace⟩).map (fun σ => (⟨[], d, σ.written⟩, σ.ok, σ.trace))
  | [], [] => none

/-- The function has returned. -/
def Goroutine.finished (g : Goroutine) : Bool :=
  g.body.isEmpty && g.deferred.isEmpty

/-- The status server with requests in flight: the shared record, one
goroutine per request, and the events of all goroutines in the order they
happened. -/
structure Server where
  ok : Ok
  gs : List Goroutine
  trace : List Event
deriving DecidableEq

/-- The server when `N` requests `GET /` have arrived and none has started. -/
def Server.start (ok : Ok) (N : Nat) : Server :=
  ⟨ok, List.replicate N ⟨handlerBody, [], none⟩, []⟩

/-- The scheduler lets goroutine `i` take one step, if it can. -/
def Server.step (w : Server) (i : Nat) : Option Server :=
  match w.gs[i]? with
  | none => none
  | some g =>
    match g.step w.ok w.trace with
    | none => none
    | some (g1, ok1, t1) => some ⟨ok1, w.gs.set i g1, t1⟩

/-- An interleaving: the goroutines take turns as the schedule names them; a
goroutine that cannot step when it is named waits. -/
def Server.run (w : Server) : List Nat → Server
  | [] => w
  | i :: sched => Server.run ((w.step i).getD w) sched

/-- Every request has been answered and its handler has returned. -/
def Server.allDone (w : Server) : Bool :=
  w.gs.all Goroutine.finished

/-- The `count` values returned so far, in the order of the requests. -/
def Server.counts (w : Server) : List Int :=
  w.gs.filterMap (fun g => g.written.bind Response.count)

/-- The statement of concurrent counting for `N` requests `GET /` on the
record built at startup: every interleaving can be continued until all
requests are answered, and whenever all are answered the `count` values
returned are `1, ..., N` in some order, no two of them equal, and the record
holds `Count = N`. -/
def concurrentCounts (N : Nat) (env : Env) : Prop :=
  (∀ sched : List Nat, ∃ more : List Nat,
      ((Server.start (newOk env) N).run (sched ++ more)).allDone = true)
  ∧ ∀ sched : List Nat, ((Server.start (newOk env) N).run sched).allDone = true →
      ((Server.start (newOk env) N).run sched).counts.Perm
          ((List.range' 1 N).map (fun (k : Nat) => (k : Int)))
        ∧ ((Server.start (newOk env) N).run sched).counts.Nodup
        ∧ ((Server.start (newOk env) N).run sched).ok.Count = (N : Int)

/-- A bound on the steps a goroutine has still to take: two for a statement
of the body (it may defer a call), one for a deferred call. -/
def Goroutine.remaining (g : Goroutine) : Nat :=
  2 * g.body.length + g.deferred.length

/-- A bound on the steps the server has still to take. -/
def Server.remaining (w : Server) : Nat :=
  (w.gs.map Goroutine.remaining).sum

/-- The stages of a goroutine that runs the handler. -/
inductive Stage where
  | idle
  | locked
  | deferred
  | incremented
  | written (r : Response)
  | finished (r : Response)
deriving DecidableEq

/-- The goroutine at a stage. -/
def Stage.toG : Stage → Goroutine
  | .idle => ⟨handlerBody, [], none⟩
  | .locked => ⟨[.defer .Unlock, .call .IncCount, .call (.JSON 200)], [], none⟩
  | .deferred => ⟨[.call .IncCount, .call (.JSON 200)], [.Unlock], none⟩
  | .incremented => ⟨[.call (.JSON 200)], [.Unlock], none⟩
  | .written r => ⟨[], [.Unlock], some r⟩
  | .finished r => ⟨[], [], some r⟩

/-- The goroutine holds the mutex. -/
def Stage.holds : Stage → Nat
  | .locked => 1
  | .deferred => 1
  | .incremented => 1
  | .written _ => 1
  | _ => 0

/-- The goroutine has incremented the counter and not yet written. -/
def Stage.ahead : Stage → Nat
  | .incremented => 1
  | _ => 0

/-- The goroutine holds the mutex and has no increment waiting to be written. -/
def Stage.settled : Stage → Nat
  | .locked => 1
  | .deferred => 1
  | .written _ => 1
  | _ => 0

/-- The goroutine has written its response. -/
def Stage.answered : Stage → Nat
  | .written _ => 1
  | .finished _ => 1
  | _ => 0

/-- The `count` a goroutine at this stage has returned. -/
def Stage.count (s : Stage) : Option Int :=
  s.toG.written.bind Response.count

/-- The invariant of the server under any interleaving, for `N` requests on
a record that started with `Count = 0`: every goroutine is at a stage of the
handler, the mutex is held exactly when one goroutine is between `Lock` and
`Unlock`, the counter is the wrapped number of increments, and the counts
returned are the wrapped numbers `1, ..., m`, `m` being the number of
answers. -/
def Inv (N : Nat) (w : Server) : Prop :=
  ∃ ss : List Stage,
    w.gs = ss.map Stage.toG
    ∧ ss.length = N
    ∧ (ss.map Stage.holds).sum = (if w.ok.Mutex.locked then 1 else 0)
    ∧ w.ok.Count = wrapInt (((ss.map Stage.ahead).sum + (ss.map Stage.answered).sum : Nat) : Int)
    ∧ (ss.filterMap Stage.count).Perm
        ((List.range' 1 (ss.map Stage.answered).sum).map (fun (k : Nat) => wrapInt (k : Int)))

/-! ## Lemmas on `getEnv` -/

@[simp] theorem utf8_empty : utf8 "" = [] := rfl

theorem length_zero_iff (s : GoString) : s.length = 0 ↔ s = "" := by
  rw [utf8_empty]
  exact List.length_eq_zero

theorem getEnv_unset (env : Env) (key fallback : GoString)
    (h : env.lookup key = none) : getEnv env key fallback = fallback := by
  simp [getEnv, Getenv, h]

theorem getEnv_set_nonempty (env : Env) (key fallback v : GoString)
    (h : env.lookup key = some v) (hv : v ≠ "") : getEnv env key fallback = v := by
  have : ¬ v.length = 0 := fun h0 => hv ((length_zero_iff v).mp h0)
  simp [getEnv, Getenv, h, this]

theorem getEnv_set_empty (env : Env) (key fallback : GoString)
    (h : env.lookup key = some (utf8 "")) : getEnv env key fallback = fallback := by
  simp [getEnv, Getenv, h]

/-- With the empty fallback `getEnv` is `os.Getenv`. -/
theorem getEnv_empty_fallback (env : Env) (key : GoString) :
    getEnv env key "" = Getenv env key := by
  unfold getEnv
  by_cases h : (Getenv env key).length = 0
  · simp [h, ((length_zero_iff _).mp h)]
  · simp [h]

/-! ## Configuration resolution -/

/-- Where the variable is unset or non-empty, `getEnv` is the environment
step of the specified resolution order. -/
theorem getEnv_eq_specResolve (env : Env) (key fallback : GoString)
    (h : env.lookup key ≠ some "") :
    getEnv env key fallback = specResolve none (env.lookup key) fallback := by
  cases hl : env.lookup key with
  | none => simp [specResolve, getEnv_unset env key fallback hl]
  | some v =>
    have hv : v ≠ "" := by
      intro hv
      apply h
      rw [hl, hv]
    simp [specResolve, getEnv_set_nonempty env key fallback v hl hv]

theorem flagString_eq_specResolve (given : Option GoString) (env : Env)
    (key fallback : GoString) (h : env.lookup key ≠ some "") :
    flagString given (getEnv env key fallback)
      = specResolve given (env.lookup key) fallback := by
  cases given with
  | none => simpa [flagString] using getEnv_eq_specResolve env key fallback h
  | some v => simp [flagString, specResolve]

/-- The code agrees with the specified resolution order on every input
where no relevant variable is set to the empty string and the metrics IP does
not have to fall back to a server IP given by `-ip`. -/
theorem parseFlags_eq_specFlags (env : Env) (cl : CommandLine)
    (hIP : env.lookup (utf8 "IP") ≠ some "") (hPORT : env.lookup (utf8 "PORT") ≠ some "")
    (hMIP : env.lookup (utf8 "METRICS_IP") ≠ some "")
    (hMPORT : env.lookup (utf8 "METRICS_PORT") ≠ some "")
    (h : cl.ip = none ∨ cl.metricsIP ≠ none ∨ env.lookup (utf8 "METRICS_IP") ≠ none) :
    parseFlags env cl = specFlags env cl := by
  have e1 := flagString_eq_specResolve cl.ip env (utf8 "IP") "0.0.0.0" hIP
  have e2 := flagString_eq_specResolve cl.port env (utf8 "PORT") "8080" hPORT
  have e3 := flagString_eq_specResolve cl.metricsPort env (utf8 "METRICS_PORT") "2112" hMPORT
  have e4 := flagString_eq_specResolve cl.metricsIP env (utf8 "METRICS_IP") (ipEnv env) hMIP
  have e5 : specResolve cl.metricsIP (env.lookup (utf8 "METRICS_IP")) (ipEnv env)
      = specResolve cl.metricsIP (env.lookup (utf8 "METRICS_IP"))
          (specResolve cl.ip (env.lookup (utf8 "IP")) "0.0.0.0") := by
    rcases h with h | h | h
    · have := flagString_eq_specResolve none env (utf8 "IP") "0.0.0.0" hIP
      rw [h]
      simp only [flagString, Option.getD_none] at this
      rw [ipEnv, this]
    · cases hm : cl.metricsIP with
      | none => exact absurd hm h
      | some v => simp [specResolve]
    · cases hm : env.lookup (utf8 "METRICS_IP") with
      | none => exact absurd hm h
      | some v => cases cl.metricsIP <;> simp [specResolve]
  simp only [parseFlags, specFlags, ipEnv, portEnv, metricsPortEnv, metricsIpEnv] at *
  rw [e1, e2, e3, e4, e5]

/-- When neither `-metricsIP` nor `-ip` is given and `METRICS_IP` is unset,
the metrics IP is the server IP. -/
theorem metricsIp_eq_ip_of_no_ip_flag (env : Env) (cl : CommandLine)
    (hm : env.lookup (utf8 "METRICS_IP") = none) (hf : cl.metricsIP = none)
    (hip : cl.ip = none) :
    (parseFlags env cl).metricsIp = (parseFlags env cl).ip := by
  simp [parseFlags, flagString, hf, hip, metricsIpEnv, getEnv_unset env (utf8 "METRICS_IP") _ hm]

/-- C2, evaluated at two failing inputs. With `IP=10.0.0.1` and `-ip 127.0.0.1`
the code resolves the metrics IP to `10.0.0.1` where the specified order gives
the resolved server IP `127.0.0.1`; with `PORT` set to the empty string and no
flag the code resolves the port to `8080` where the specified order gives the
value of the variable, the empty string. -/
theorem C2_parseFlags_differs_from_spec :
    (parseFlags [("IP", "10.0.0.1")] ⟨some "127.0.0.1", none, none, none⟩).metricsIp
        = "10.0.0.1"
      ∧ (specFlags [("IP", "10.0.0.1")] ⟨some "127.0.0.1", none, none, none⟩).metricsIp
        = "127.0.0.1"
      ∧ (parseFlags [("PORT", "")] noFlags).port = "8080"
      ∧ (specFlags [("PORT", "")] noFlags).port = "" := by
  decide

/-- C3, evaluated at the failing input: empty environment, `-ip 127.0.0.1`,
no `-metricsIP`. `METRICS_IP` is unset and `-metricsIP` is not given, the
status server binds `127.0.0.1:8080`, and the metrics server binds
`0.0.0.0:2112`: its IP is not the resolved value of `-ip`. -/
theorem C3_metricsIp_ignores_ip_flag :
    (([] : Env).lookup (utf8 "METRICS_IP") = none)
      ∧ (CommandLine.mk (some "127.0.0.1") none none none).metricsIP = none
      ∧ serverAddr [] ⟨some "127.0.0.1", none, none, none⟩ = "127.0.0.1:8080"
      ∧ metricsAddr [] ⟨some "127.0.0.1", none, none, none⟩ = "0.0.0.0:2112"
      ∧ (parseFlags [] ⟨some "127.0.0.1", none, none, none⟩).metricsIp
          ≠ (parseFlags [] ⟨some "127.0.0.1", none, none, none⟩).ip := by
  decide

/-- C4: with no flag and none of `IP`, `PORT`, `METRICS_IP`, `METRICS_PORT`
in the environment, the status server binds `0.0.0.0:8080` and the metrics
server binds `0.0.0.0:2112`. -/
theorem C4_default_addresses (env : Env)
    (hIP : env.lookup (utf8 "IP") = none) (hPORT : env.lookup (utf8 "PORT") = none)
    (hMIP : env.lookup (utf8 "METRICS_IP") = none)
    (hMPORT : env.lookup (utf8 "METRICS_PORT") = none) :
    serverAddr env noFlags = "0.0.0.0:8080"
      ∧ metricsAddr env noFlags = "0.0.0.0:2112" := by
  have h1 : ipEnv env = "0.0.0.0" := getEnv_unset env (utf8 "IP") _ hIP
  have h2 : portEnv env = "8080" := getEnv_unset env (utf8 "PORT") _ hPORT
  have h3 : metricsIpEnv env = "0.0.0.0" := by
    rw [metricsIpEnv, getEnv_unset env (utf8 "METRICS_IP") _ hMIP, h1]
  have h4 : metricsPortEnv env = "2112" := getEnv_unset env (utf8 "METRICS_PORT") _ hMPORT
  simp only [serverAddr, metricsAddr, parseFlags, noFlags, flagString,
    Option.getD_none, h1, h2, h3, h4]
  constructor <;> rfl

/-- Witness of C4 on an environment that holds an unrelated variable. -/
theorem C4_default_addresses_witness :
    serverAddr [("HOME", "/root")] noFlags = "0.0.0.0:8080"
      ∧ metricsAddr [("HOME", "/root")] noFlags = "0.0.0.0:2112" :=
  C4_default_addresses [("HOME", "/root")] (by decide) (by decide) (by decide) (by decide)

/-- C9, evaluated at the failing input: `IP` exists in the environment with
the empty value, and `getEnv("IP", "0.0.0.0")` returns the fallback, not the
variable's value. -/
theorem C9_getEnv_empty_value_returns_fallback :
    List.lookup (utf8 "IP") ([("IP", "")] : Env) = some (utf8 "")
      ∧ getEnv [("IP", "")] "IP" "0.0.0.0" = "0.0.0.0"
      ∧ getEnv [("IP", "")] "IP" "0.0.0.0" ≠ "" := by
  decide

/-! ## Valid UTF-8 passes through the JSON encoder unchanged -/

theorem appendStringFrom_ascii (b : UInt8) (rest : GoString) (h : b.toNat < 0x80) :
    appendStringFrom 0 (b :: rest) = b :: appendStringFrom 0 rest := by
  simp [appendStringFrom, h]

theorem first_two (n : Nat) (h0 : 0xC2 ≤ n) (h1 : n ≤ 0xDF) : first n = 0x02 := by
  unfold first
  split_ifs <;> omega

theorem decode_two (b0 b1 : UInt8) (t : GoString)
    (h0 : 0xC2 ≤ b0.toNat) (h1 : b0.toNat ≤ 0xDF) (ht : isTail b1) :
    (DecodeRuneInString (b0 :: b1 :: t)).2 = 2 := by
  obtain ⟨ht1, ht2⟩ := ht
  have hf := first_two b0.toNat h0 h1
  simp only [DecodeRuneInString, hf, acceptRanges, List.length_cons, List.getD_cons_zero,
    List.getD_cons_succ]
  generalize b1.toNat = m at ht1 ht2
  rw [if_neg (by omega), if_neg (by decide), if_neg (by omega), if_neg (by omega),
    if_pos (by decide)]

theorem first_eq (n x : Nat)
    (h : (n = 0xE0 ∧ x = 0x13) ∨ (0xE1 ≤ n ∧ n ≤ 0xEC ∧ x = 0x03)
      ∨ (n = 0xED ∧ x = 0x23) ∨ (0xEE ≤ n ∧ n ≤ 0xEF ∧ x = 0x03)
      ∨ (n = 0xF0 ∧ x = 0x34) ∨ (0xF1 ≤ n ∧ n ≤ 0xF3 ∧ x = 0x04)
      ∨ (n = 0xF4 ∧ x = 0x44)) : first n = x := by
  unfold first
  split_ifs <;> omega

/-- Width 3 from the entry of the leading byte and the range of the second. -/
theorem decode_three_of (b0 b1 b2 : UInt8) (t : GoString) (x lo hi : Nat)
    (hf : first b0.toNat = x) (hx : x = 0x13 ∨ x = 0x03 ∨ x = 0x23)
    (ha : acceptRanges (x / 16) = (lo, hi))
    (l1 : lo ≤ b1.toNat) (u1 : b1.toNat ≤ hi) (ht : isTail b2) :
    (DecodeRuneInString (b0 :: b1 :: b2 :: t)).2 = 3 := by
  obtain ⟨l2, u2⟩ := ht
  simp only [DecodeRuneInString, List.length_cons, List.getD_cons_zero,
    List.getD_cons_succ, hf, ha]
  generalize b1.toNat = n1 at l1 u1
  generalize b2.toNat = n2 at l2 u2
  have hsz : x % 8 = 3 := by omega
  have hlt : ¬ x ≥ 0xF0 := by omega
  rw [hsz]
  rw [if_neg (by omega), if_neg hlt, if_neg (by omega), if_neg (by omega),
    if_neg (by omega), if_neg (by omega), if_pos (by omega)]

/-- Width 4 from the entry of the leading byte and the range of the second. -/
theorem decode_four_of (b0 b1 b2 b3 : UInt8) (t : GoString) (x lo hi : Nat)
    (hf : first b0.toNat = x) (hx : x = 0x34 ∨ x = 0x04 ∨ x = 0x44)
    (ha : acceptRanges (x / 16) = (lo, hi))
    (l1 : lo ≤ b1.toNat) (u1 : b1.toNat ≤ hi) (ht2 : isTail b2) (ht3 : isTail b3) :
    (DecodeRuneInString (b0 :: b1 :: b2 :: b3 :: t)).2 = 4 := by
  obtain ⟨l2, u2⟩ := ht2
  obtain ⟨l3, u3⟩ := ht3
  simp only [DecodeRuneInString, List.length_cons, List.getD_cons_zero,
    List.getD_cons_succ, hf, ha]
  generalize b1.toNat = n1 at l1 u1
  generalize b2.toNat = n2 at l2 u2
  generalize b3.toNat = n3 at l3 u3
  have hsz : x % 8 = 4 := by omega
  have hlt : ¬ x ≥ 0xF0 := by omega
  rw [hsz]
  rw [if_neg (by omega), if_neg hlt, if_neg (by omega), if_neg (by omega),
    if_neg (by omega), if_neg (by omega), if_neg (by omega), if_neg (by omega)]

theorem decode_three (b0 b1 b2 : UInt8) (t : GoString)
    (h : (b0.toNat = 0xE0 ∧ 0xA0 ≤ b1.toNat ∧ b1.toNat ≤ 0xBF)
        ∨ (0xE1 ≤ b0.toNat ∧ b0.toNat ≤ 0xEC ∧ isTail b1)
        ∨ (b0.toNat = 0xED ∧ 0x80 ≤ b1.toNat ∧ b1.toNat ≤ 0x9F)
        ∨ (0xEE ≤ b0.toNat ∧ b0.toNat ≤ 0xEF ∧ isTail b1))
    (ht : isTail b2) :
    (DecodeRuneInString (b0 :: b1 :: b2 :: t)).2 = 3 := by
  rcases h with ⟨e, l, u⟩ | ⟨l0, u0, l, u⟩ | ⟨e, l, u⟩ | ⟨l0, u0, l, u⟩
  · exact decode_three_of b0 b1 b2 t 0x13 0xA0 0xBF
      (first_eq _ _ (Or.inl ⟨e, rfl⟩)) (Or.inl rfl) rfl l u ht
  · exact decode_three_of b0 b1 b2 t 0x03 0x80 0xBF
      (first_eq _ _ (Or.inr (Or.inl ⟨l0, u0, rfl⟩))) (Or.inr (Or.inl rfl)) rfl l u ht
  · exact decode_three_of b0 b1 b2 t 0x23 0x80 0x9F
      (first_eq _ _ (Or.inr (Or.inr (Or.inl ⟨e, rfl⟩)))) (Or.inr (Or.inr rfl)) rfl l u ht
  · exact decode_three_of b0 b1 b2 t 0x03 0x80 0xBF
      (first_eq _ _ (Or.inr (Or.inr (Or.inr (Or.inl ⟨l0, u0, rfl⟩)))))
      (Or.inr (Or.inl rfl)) rfl l u ht

theorem decode_four (b0 b1 b2 b3 : UInt8) (t : GoString)
    (h : (b0.toNat = 0xF0 ∧ 0x90 ≤ b1.toNat ∧ b1.toNat ≤ 0xBF)
        ∨ (0xF1 ≤ b0.toNat ∧ b0.toNat ≤ 0xF3 ∧ isTail b1)
        ∨ (b0.toNat = 0xF4 ∧ 0x80 ≤ b1.toNat ∧ b1.toNat ≤ 0x8F))
    (ht2 : isTail b2) (ht3 : isTail b3) :
    (DecodeRuneInString (b0 :: b1 :: b2 :: b3 :: t)).2 = 4 := by
  rcases h with ⟨e, l, u⟩ | ⟨l0, u0, l, u⟩ | ⟨e, l, u⟩
  · exact decode_four_of b0 b1 b2 b3 t 0x34 0x90 0xBF
      (first_eq _ _ (Or.inr (Or.inr (Or.inr (Or.inr (Or.inl ⟨e, rfl⟩))))))
      (Or.inl rfl) rfl l u ht2 ht3
  · exact decode_four_of b0 b1 b2 b3 t 0x04 0x80 0xBF
      (first_eq _ _ (Or.inr (Or.inr (Or.inr (Or.inr (Or.inr (Or.inl ⟨l0, u0, rfl⟩)))))))
      (Or.inr (Or.inl rfl)) rfl l u ht2 ht3
  · exact decode_four_of b0 b1 b2 b3 t 0x44 0x80 0x8F
      (first_eq _ _ (Or.inr (Or.inr (Or.inr (Or.inr (Or.inr (Or.inr ⟨e, rfl⟩)))))))
      (Or.inr (Or.inr rfl)) rfl l u ht2 ht3

/-- A byte that is not ASCII and whose decoding has width `k + 1 > 1` starts a
sequence that is copied. -/
theorem appendStringFrom_accept (b : UInt8) (rest : GoString) (k : Nat)
    (hb : ¬ b.toNat < 0x80)
    (hd : (DecodeRuneInString ((b :: rest).take 4)).2 = k + 2) :
    appendStringFrom 0 (b :: rest) = b :: appendStringFrom (k + 1) rest := by
  have hd2 : (DecodeRuneInString (b :: rest.take 3)).2 = k + 2 := by simpa using hd
  simp [appendStringFrom, hb, hd2]

/-- Valid UTF-8 is the value of the JSON string written for it. -/
theorem stringValue_of_valid (s : GoString) (h : ValidUTF8 s) : stringValue s = s := by
  unfold stringValue
  induction h with
  | nil => rfl
  | one b rest hb _ ih => rw [appendStringFrom_ascii b rest hb, ih]
  | two b0 b1 rest h0 h1 ht _ ih =>
    rw [appendStringFrom_accept b0 (b1 :: rest) 0 (by omega)
      (decode_two b0 b1 _ h0 h1 ht)]
    simp only [appendStringFrom, ih]
  | three b0 b1 b2 rest h ht _ ih =>
    have hb : ¬ b0.toNat < 0x80 := by
      unfold isTail at h
      omega
    rw [appendStringFrom_accept b0 (b1 :: b2 :: rest) 1 hb (decode_three b0 b1 b2 _ h ht)]
    simp only [appendStringFrom, ih]
  | four b0 b1 b2 b3 rest h ht2 ht3 _ ih =>
    have hb : ¬ b0.toNat < 0x80 := by
      unfold isTail at h
      omega
    rw [appendStringFrom_accept b0 (b1 :: b2 :: b3 :: rest) 2 hb
      (decode_four b0 b1 b2 b3 _ h ht2 ht3)]
    simp only [appendStringFrom, ih]

/-- Text made of ASCII bytes only is valid UTF-8. -/
theorem validUTF8_of_ascii (s : GoString) (h : ∀ b ∈ s, b.toNat < 0x80) : ValidUTF8 s := by
  induction s with
  | nil => exact .nil
  | cons b rest ih =>
    exact .one b rest (h b (List.mem_cons_self _ _))
      (ih (fun c hc => h c (List.mem_cons_of_mem _ hc)))

theorem appendStringFrom_pending (k : Nat) (s : GoString) :
    appendStringFrom k s = s.take k ++ appendStringFrom 0 (s.drop k) := by
  induction s generalizing k with
  | nil => cases k <;> simp [appendStringFrom]
  | cons b rest ih =>
    cases k with
    | zero => simp
    | succ k => simp [appendStringFrom, ih k]

theorem length_appendStringFrom (s : GoString) :
    ∀ k, s.length ≤ (appendStringFrom k s).length := by
  induction s with
  | nil => intro k; simp [appendStringFrom]
  | cons b rest ih =>
    intro k
    cases k with
    | succ k =>
      simp only [appendStringFrom, List.length_cons]
      have := ih k
      omega
    | zero =>
      simp only [appendStringFrom]
      split_ifs
      · simp only [List.length_cons]
        have := ih 0
        omega
      · simp only [List.length_append, List.length_cons, List.length_nil]
        have := ih 0
        omega
      · simp only [List.length_cons]
        have := ih ((DecodeRuneInString (List.take 4 (b :: rest))).2 - 1)
        omega

theorem first_invalid (n : Nat) (h : (0x80 ≤ n ∧ n < 0xC2) ∨ 0xF5 ≤ n) : first n = 0xF1 := by
  unfold first
  split_ifs <;> omega

theorem first_lead (n : Nat) (h : 0x80 ≤ n) : Lead n (first n) := by
  have hc : (0x80 ≤ n ∧ n < 0xC2) ∨ 0xF5 ≤ n ∨ (0xC2 ≤ n ∧ n ≤ 0xDF) ∨ n = 0xE0
      ∨ ((0xE1 ≤ n ∧ n ≤ 0xEC) ∨ (0xEE ≤ n ∧ n ≤ 0xEF)) ∨ n = 0xED ∨ n = 0xF0
      ∨ (0xF1 ≤ n ∧ n ≤ 0xF3) ∨ n = 0xF4 := by omega
  rcases hc with h1 | h1 | h1 | h1 | h1 | h1 | h1 | h1 | h1
  · rw [first_invalid n (Or.inl h1)]
    exact .invalid n (Or.inl h1)
  · rw [first_invalid n (Or.inr h1)]
    exact .invalid n (Or.inr h1)
  · rw [first_two n h1.1 h1.2]
    exact .s1 n h1.1 h1.2
  · rw [first_eq n _ (Or.inl ⟨h1, rfl⟩)]
    exact .s2 n h1
  · have e : first n = 0x03 := by
      rcases h1 with h1 | h1
      · exact first_eq n _ (Or.inr (Or.inl ⟨h1.1, h1.2, rfl⟩))
      · exact first_eq n _ (Or.inr (Or.inr (Or.inr (Or.inl ⟨h1.1, h1.2, rfl⟩))))
    rw [e]
    exact .s3 n h1
  · rw [first_eq n _ (Or.inr (Or.inr (Or.inl ⟨h1, rfl⟩)))]
    exact .s4 n h1
  · rw [first_eq n _ (Or.inr (Or.inr (Or.inr (Or.inr (Or.inl ⟨h1, rfl⟩)))))]
    exact .s5 n h1
  · rw [first_eq n _ (Or.inr (Or.inr (Or.inr (Or.inr (Or.inr (Or.inl ⟨h1.1, h1.2, rfl⟩))))))]
    exact .s6 n h1.1 h1.2
  · rw [first_eq n _ (Or.inr (Or.inr (Or.inr (Or.inr (Or.inr (Or.inr ⟨h1, rfl⟩))))))]
    exact .s7 n h1

theorem decode_error_of_short (b0 : UInt8) (t : GoString) (x : Nat)
    (hf : first b0.toNat = x) (hx : x < 0xF0) (hn : t.length + 1 < x % 8) :
    DecodeRuneInString (b0 :: t) = (RuneError, 1) := by
  simp only [DecodeRuneInString, List.length_cons, List.getD_cons_zero, hf]
  rw [if_neg (by omega), if_neg (by omega), if_pos hn]

theorem decode_error_of_second (b0 b1 : UInt8) (t : GoString) (x lo hi : Nat)
    (hf : first b0.toNat = x) (hx : x < 0xF0) (ha : acceptRanges (x / 16) = (lo, hi))
    (h1 : b1.toNat < lo ∨ hi < b1.toNat) :
    DecodeRuneInString (b0 :: b1 :: t) = (RuneError, 1) := by
  simp only [DecodeRuneInString, List.length_cons, List.getD_cons_zero,
    List.getD_cons_succ, hf, ha]
  rw [if_neg (by omega), if_neg (by omega)]
  split_ifs
  · rfl
  · rfl

theorem decode_error_of_third (b0 b1 b2 : UInt8) (t : GoString) (x lo hi : Nat)
    (hf : first b0.toNat = x) (hx : x < 0xF0) (hsz : 3 ≤ x % 8)
    (ha : acceptRanges (x / 16) = (lo, hi))
    (h2 : ¬ isTail b2) :
    DecodeRuneInString (b0 :: b1 :: b2 :: t) = (RuneError, 1) := by
  unfold isTail at h2
  simp only [DecodeRuneInString, List.length_cons, List.getD_cons_zero,
    List.getD_cons_succ, hf, ha]
  generalize b2.toNat = n2 at h2
  rw [if_neg (by omega), if_neg (by omega)]
  split_ifs <;> first | rfl | omega

theorem decode_error_of_fourth (b0 b1 b2 b3 : UInt8) (t : GoString) (x lo hi : Nat)
    (hf : first b0.toNat = x) (hx : x < 0xF0) (hsz : 4 ≤ x % 8)
    (ha : acceptRanges (x / 16) = (lo, hi))
    (h3 : ¬ isTail b3) :
    DecodeRuneInString (b0 :: b1 :: b2 :: b3 :: t) = (RuneError, 1) := by
  unfold isTail at h3
  simp only [DecodeRuneInString, List.length_cons, List.getD_cons_zero,
    List.getD_cons_succ, hf, ha]
  generalize b3.toNat = n3 at h3
  rw [if_neg (by omega), if_neg (by omega)]
  split_ifs <;> first | rfl | omega

theorem decode_invalid (b0 : UInt8) (t : GoString) (hf : first b0.toNat = 0xF1) :
    DecodeRuneInString (b0 :: t) = (RuneError, 1) := by
  simp only [DecodeRuneInString, List.length_cons, List.getD_cons_zero, hf]
  rw [if_neg (by omega), if_pos (by decide), if_neg (by decide)]

/-- A leading byte of a two-byte sequence is accepted only before a
continuation byte. -/
theorem accepted_two (b0 : UInt8) (rest : GoString)
    (hf : first b0.toNat = 0x02)
    (h : ¬ ((DecodeRuneInString ((b0 :: rest).take 4)).1 = RuneError
      ∧ (DecodeRuneInString ((b0 :: rest).take 4)).2 = 1)) :
    ∃ b1 r1, rest = b1 :: r1 ∧ isTail b1 := by
  rcases rest with _ | ⟨b1, r1⟩
  · exfalso
    apply h
    rw [show List.take 4 [b0] = b0 :: [] from rfl,
      decode_error_of_short b0 [] 0x02 hf (by decide) (by decide)]
    exact ⟨rfl, rfl⟩
  · refine ⟨b1, r1, rfl, ?_⟩
    by_contra ht
    apply h
    rw [show List.take 4 (b0 :: b1 :: r1) = b0 :: b1 :: r1.take 2 from rfl,
      decode_error_of_second b0 b1 _ 0x02 0x80 0xBF hf (by decide) rfl
        (by unfold isTail at ht; omega)]
    exact ⟨rfl, rfl⟩

/-- A leading byte of a three-byte sequence is accepted only before a second
byte in its range and a continuation byte. -/
theorem accepted_three (b0 : UInt8) (rest : GoString) (x lo hi : Nat)
    (hf : first b0.toNat = x) (hx : x = 0x13 ∨ x = 0x03 ∨ x = 0x23)
    (ha : acceptRanges (x / 16) = (lo, hi))
    (h : ¬ ((DecodeRuneInString ((b0 :: rest).take 4)).1 = RuneError
      ∧ (DecodeRuneInString ((b0 :: rest).take 4)).2 = 1)) :
    ∃ b1 b2 r2, rest = b1 :: b2 :: r2 ∧ lo ≤ b1.toNat ∧ b1.toNat ≤ hi ∧ isTail b2 := by
  have hx1 : x < 0xF0 := by omega
  have hx2 : x % 8 = 3 := by omega
  rcases rest with _ | ⟨b1, _ | ⟨b2, r2⟩⟩
  · exfalso
    apply h
    rw [show List.take 4 [b0] = b0 :: [] from rfl,
      decode_error_of_short b0 [] x hf hx1 (by rw [hx2]; simp)]
    exact ⟨rfl, rfl⟩
  · exfalso
    apply h
    rw [show List.take 4 [b0, b1] = b0 :: [b1] from rfl,
      decode_error_of_short b0 [b1] x hf hx1 (by rw [hx2]; simp)]
    exact ⟨rfl, rfl⟩
  · have e : List.take 4 (b0 :: b1 :: b2 :: r2) = b0 :: b1 :: b2 :: r2.take 1 := rfl
    rw [e] at h
    by_cases h1 : b1.toNat < lo ∨ hi < b1.toNat
    · exfalso
      apply h
      rw [decode_error_of_second b0 b1 _ x lo hi hf hx1 ha h1]
      exact ⟨rfl, rfl⟩
    · by_cases h2 : isTail b2
      · exact ⟨b1, b2, r2, rfl, by omega, by omega, h2⟩
      · exfalso
        apply h
        rw [decode_error_of_third b0 b1 b2 _ x lo hi hf hx1 (by omega) ha h2]
        exact ⟨rfl, rfl⟩

/-- A leading byte of a four-byte sequence is accepted only before a second
byte in its range and two continuation bytes. -/
theorem accepted_four (b0 : UInt8) (rest : GoString) (x lo hi : Nat)
    (hf : first b0.toNat = x) (hx : x = 0x34 ∨ x = 0x04 ∨ x = 0x44)
    (ha : acceptRanges (x / 16) = (lo, hi))
    (h : ¬ ((DecodeRuneInString ((b0 :: rest).take 4)).1 = RuneError
      ∧ (DecodeRuneInString ((b0 :: rest).take 4)).2 = 1)) :
    ∃ b1 b2 b3 r3, rest = b1 :: b2 :: b3 :: r3 ∧ lo ≤ b1.toNat ∧ b1.toNat ≤ hi
      ∧ isTail b2 ∧ isTail b3 := by
  have hx1 : x < 0xF0 := by omega
  have hx2 : x % 8 = 4 := by omega
  rcases rest with _ | ⟨b1, _ | ⟨b2, _ | ⟨b3, r3⟩⟩⟩
  · exfalso
    apply h
    rw [show List.take 4 [b0] = b0 :: [] from rfl,
      decode_error_of_short b0 [] x hf hx1 (by rw [hx2]; simp)]
    exact ⟨rfl, rfl⟩
  · exfalso
    apply h
    rw [show List.take 4 [b0, b1] = b0 :: [b1] from rfl,
      decode_error_of_short b0 [b1] x hf hx1 (by rw [hx2]; simp)]
    exact ⟨rfl, rfl⟩
  · exfalso
    apply h
    rw [show List.take 4 [b0, b1, b2] = b0 :: [b1, b2] from rfl,
      decode_error_of_short b0 [b1, b2] x hf hx1 (by rw [hx2]; simp)]
    exact ⟨rfl, rfl⟩
  · have e : List.take 4 (b0 :: b1 :: b2 :: b3 :: r3) = b0 :: b1 :: b2 :: b3 :: [] := rfl
    rw [e] at h
    by_cases h1 : b1.toNat < lo ∨ hi < b1.toNat
    · exfalso
      apply h
      rw [decode_error_of_second b0 b1 _ x lo hi hf hx1 ha h1]
      exact ⟨rfl, rfl⟩
    · by_cases h2 : isTail b2
      · by_cases h3 : isTail b3
        · exact ⟨b1, b2, b3, r3, rfl, by omega, by omega, h2, h3⟩
        · exfalso
          apply h
          rw [decode_error_of_fourth b0 b1 b2 b3 _ x lo hi hf hx1 (by omega) ha h3]
          exact ⟨rfl, rfl⟩
      · exfalso
        apply h
        rw [decode_error_of_third b0 b1 b2 _ x lo hi hf hx1 (by omega) ha h2]
        exact ⟨rfl, rfl⟩

theorem valid_of_appendStringFrom_eq (n : Nat) :
    ∀ s : GoString, s.length = n → appendStringFrom 0 s = s → ValidUTF8 s := by
  induction n using Nat.strong_induction_on with
  | _ n ih =>
    intro s hn h
    rcases s with _ | ⟨b0, rest⟩
    · exact .nil
    · by_cases hb : b0.toNat < 0x80
      · rw [appendStringFrom_ascii b0 rest hb] at h
        exact .one b0 rest hb
          (ih rest.length (by rw [← hn]; simp) rest rfl (List.cons.inj h).2)
      · by_cases herr : (DecodeRuneInString ((b0 :: rest).take 4)).1 = RuneError
            ∧ (DecodeRuneInString ((b0 :: rest).take 4)).2 = 1
        · exfalso
          have e : appendStringFrom 0 (b0 :: rest)
              = [0xEF, 0xBF, 0xBD] ++ appendStringFrom 0 rest := by
            simp only [appendStringFrom, if_neg hb, if_pos herr]
          rw [e] at h
          have hl := congrArg List.length h
          have := length_appendStringFrom rest 0
          simp only [List.length_append, List.length_cons, List.length_nil] at hl
          omega
        · have e : appendStringFrom 0 (b0 :: rest) = b0 ::
              appendStringFrom ((DecodeRuneInString ((b0 :: rest).take 4)).2 - 1) rest := by
            simp only [appendStringFrom, if_neg hb, if_neg herr]
          rw [e] at h
          have h := (List.cons.inj h).2
          have hl := first_lead b0.toNat (by omega)
          generalize hx : first b0.toNat = x at hl
          cases hl with
          | invalid hi =>
            exfalso
            apply herr
            rw [show List.take 4 (b0 :: rest) = b0 :: rest.take 3 from rfl,
              decode_invalid b0 _ hx]
            exact ⟨rfl, rfl⟩
          | s1 l0 u0 =>
            obtain ⟨b1, r1, rfl, ht⟩ := accepted_two b0 rest hx herr
            rw [show List.take 4 (b0 :: b1 :: r1) = b0 :: b1 :: r1.take 2 from rfl,
              decode_two b0 b1 _ l0 u0 ht] at h
            simp only [appendStringFrom, Nat.add_one_sub_one] at h
            exact .two b0 b1 r1 l0 u0 ht
              (ih r1.length (by rw [← hn]; simp only [List.length_cons]; omega) r1 rfl
                (List.cons.inj h).2)
          | s2 e0 =>
            obtain ⟨b1, b2, r2, rfl, l1, u1, ht2⟩ :=
              accepted_three b0 rest 0x13 0xA0 0xBF hx (Or.inl rfl) rfl herr
            have hc : (b0.toNat = 0xE0 ∧ 0xA0 ≤ b1.toNat ∧ b1.toNat ≤ 0xBF)
                ∨ (0xE1 ≤ b0.toNat ∧ b0.toNat ≤ 0xEC ∧ isTail b1)
                ∨ (b0.toNat = 0xED ∧ 0x80 ≤ b1.toNat ∧ b1.toNat ≤ 0x9F)
                ∨ (0xEE ≤ b0.toNat ∧ b0.toNat ≤ 0xEF ∧ isTail b1) := Or.inl ⟨e0, l1, u1⟩
            rw [show List.take 4 (b0 :: b1 :: b2 :: r2) = b0 :: b1 :: b2 :: r2.take 1 from rfl,
              decode_three b0 b1 b2 _ hc ht2] at h
            simp only [appendStringFrom, Nat.add_one_sub_one] at h
            exact .three b0 b1 b2 r2 hc ht2
              (ih r2.length (by rw [← hn]; simp only [List.length_cons]; omega) r2 rfl
                (List.cons.inj (List.cons.inj h).2).2)
          | s3 hr =>
            obtain ⟨b1, b2, r2, rfl, l1, u1, ht2⟩ :=
              accepted_three b0 rest 0x03 0x80 0xBF hx (Or.inr (Or.inl rfl)) rfl herr
            have hc : (b0.toNat = 0xE0 ∧ 0xA0 ≤ b1.toNat ∧ b1.toNat ≤ 0xBF)
                ∨ (0xE1 ≤ b0.toNat ∧ b0.toNat ≤ 0xEC ∧ isTail b1)
                ∨ (b0.toNat = 0xED ∧ 0x80 ≤ b1.toNat ∧ b1.toNat ≤ 0x9F)
                ∨ (0xEE ≤ b0.toNat ∧ b0.toNat ≤ 0xEF ∧ isTail b1) := by
              rcases hr with hr | hr
              · exact Or.inr (Or.inl ⟨hr.1, hr.2, l1, u1⟩)
              · exact Or.inr (Or.inr (Or.inr ⟨hr.1, hr.2, l1, u1⟩))
            rw [show List.take 4 (b0 :: b1 :: b2 :: r2) = b0 :: b1 :: b2 :: r2.take 1 from rfl,
              decode_three b0 b1 b2 _ hc ht2] at h
            simp only [appendStringFrom, Nat.add_one_sub_one] at h
            exact .three b0 b1 b2 r2 hc ht2
              (ih r2.length (by rw [← hn]; simp only [List.length_cons]; omega) r2 rfl
                (List.cons.inj (List.cons.inj h).2).2)
          | s4 e0 =>
            obtain ⟨b1, b2, r2, rfl, l1, u1, ht2⟩ :=
              accepted_three b0 rest 0x23 0x80 0x9F hx (Or.inr (Or.inr rfl)) rfl herr
            have hc : (b0.toNat = 0xE0 ∧ 0xA0 ≤ b1.toNat ∧ b1.toNat ≤ 0xBF)
                ∨ (0xE1 ≤ b0.toNat ∧ b0.toNat ≤ 0xEC ∧ isTail b1)
                ∨ (b0.toNat = 0xED ∧ 0x80 ≤ b1.toNat ∧ b1.toNat ≤ 0x9F)
                ∨ (0xEE ≤ b0.toNat ∧ b0.toNat ≤ 0xEF ∧ isTail b1) := Or.inr (Or.inr (Or.inl ⟨e0, l1, u1⟩))
            rw [show List.take 4 (b0 :: b1 :: b2 :: r2) = b0 :: b1 :: b2 :: r2.take 1 from rfl,
              decode_three b0 b1 b2 _ hc ht2] at h
            simp only [appendStringFrom, Nat.add_one_sub_one] at h
            exact .three b0 b1 b2 r2 hc ht2
              (ih r2.length (by rw [← hn]; simp only [List.length_cons]; omega) r2 rfl
                (List.cons.inj (List.cons.inj h).2).2)
          | s5 e0 =>
            obtain ⟨b1, b2, b3, r3, rfl, l1, u1, ht2, ht3⟩ :=
              accepted_four b0 rest 0x34 0x90 0xBF hx (Or.inl rfl) rfl herr
            have hc : (b0.toNat = 0xF0 ∧ 0x90 ≤ b1.toNat ∧ b1.toNat ≤ 0xBF)
                ∨ (0xF1 ≤ b0.toNat ∧ b0.toNat ≤ 0xF3 ∧ isTail b1)
                ∨ (b0.toNat = 0xF4 ∧ 0x80 ≤ b1.toNat ∧ b1.toNat ≤ 0x8F) := Or.inl ⟨e0, l1, u1⟩
            rw [show List.take 4 (b0 :: b1 :: b2 :: b3 :: r3) = b0 :: b1 :: b2 :: b3 :: []
                from rfl,
              decode_four b0 b1 b2 b3 _ hc ht2 ht3] at h
            simp only [appendStringFrom, Nat.add_one_sub_one] at h
            exact .four b0 b1 b2 b3 r3 hc ht2 ht3
              (ih r3.length (by rw [← hn]; simp only [List.length_cons]; omega) r3 rfl
                (List.cons.inj (List.cons.inj (List.cons.inj h).2).2).2)
          | s6 l0 u0 =>
            obtain ⟨b1, b2, b3, r3, rfl, l1, u1, ht2, ht3⟩ :=
              accepted_four b0 rest 0x04 0x80 0xBF hx (Or.inr (Or.inl rfl)) rfl herr
            have hc : (b0.toNat = 0xF0 ∧ 0x90 ≤ b1.toNat ∧ b1.toNat ≤ 0xBF)
                ∨ (0xF1 ≤ b0.toNat ∧ b0.toNat ≤ 0xF3 ∧ isTail b1)
                ∨ (b0.toNat = 0xF4 ∧ 0x80 ≤ b1.toNat ∧ b1.toNat ≤ 0x8F) := Or.inr (Or.inl ⟨l0, u0, l1, u1⟩)
            rw [show List.take 4 (b0 :: b1 :: b2 :: b3 :: r3) = b0 :: b1 :: b2 :: b3 :: []
                from rfl,
              decode_four b0 b1 b2 b3 _ hc ht2 ht3] at h
            simp only [appendStringFrom, Nat.add_one_sub_one] at h
            exact .four b0 b1 b2 b3 r3 hc ht2 ht3
              (ih r3.length (by rw [← hn]; simp only [List.length_cons]; omega) r3 rfl
                (List.cons.inj (List.cons.inj (List.cons.inj h).2).2).2)
          | s7 e0 =>
            obtain ⟨b1, b2, b3, r3, rfl, l1, u1, ht2, ht3⟩ :=
              accepted_four b0 rest 0x44 0x80 0x8F hx (Or.inr (Or.inr rfl)) rfl herr
            have hc : (b0.toNat = 0xF0 ∧ 0x90 ≤ b1.toNat ∧ b1.toNat ≤ 0xBF)
                ∨ (0xF1 ≤ b0.toNat ∧ b0.toNat ≤ 0xF3 ∧ isTail b1)
                ∨ (b0.toNat = 0xF4 ∧ 0x80 ≤ b1.toNat ∧ b1.toNat ≤ 0x8F) := Or.inr (Or.inr ⟨e0, l1, u1⟩)
            rw [show List.take 4 (b0 :: b1 :: b2 :: b3 :: r3) = b0 :: b1 :: b2 :: b3 :: []
                from rfl,
              decode_four b0 b1 b2 b3 _ hc ht2 ht3] at h
            simp only [appendStringFrom, Nat.add_one_sub_one] at h
            exact .four b0 b1 b2 b3 r3 hc ht2 ht3
              (ih r3.length (by rw [← hn]; simp only [List.length_cons]; omega) r3 rfl
                (List.cons.inj (List.cons.inj (List.cons.inj h).2).2).2)

/-- Only valid UTF-8 is the value of the JSON string written for it. -/
theorem valid_of_stringValue_eq (s : GoString) (h : stringValue s = s) : ValidUTF8 s :=
  valid_of_appendStringFrom_eq s.length s rfl h

/-- The JSON encoder leaves exactly the valid UTF-8 strings unchanged. -/
theorem stringValue_eq_iff (s : GoString) : stringValue s = s ↔ ValidUTF8 s :=
  ⟨valid_of_stringValue_eq s, stringValue_of_valid s⟩

/-- The single byte `0xFF` is not valid UTF-8. -/
theorem not_valid_0xFF : ¬ ValidUTF8 [0xFF] := by
  intro h
  cases h with
  | one _ _ hb _ => exact absurd hb (by decide)

/-- The JSON encoder turns the byte `0xFF` into U+FFFD. -/
theorem stringValue_0xFF : stringValue [0xFF] = [0xEF, 0xBF, 0xBD] := by
  decide

/-! ## The handler -/

theorem wrapInt_succ (x : Int) : wrapInt (wrapInt x + 1) = wrapInt (x + 1) := by
  unfold wrapInt
  omega

theorem wrapInt_of_range (x : Int) (h0 : -2 ^ 63 ≤ x) (h1 : x < 2 ^ 63) :
    wrapInt x = x := by
  unfold wrapInt
  omega

/-- The encoding of a record, member by member: the mutex yields none. -/
theorem marshal_eq (ok : Ok) :
    marshal ok =
      [ ("version", .str (stringValue ok.Version)),
        ("node_name", .str (stringValue ok.NodeName)),
        ("pod_name", .str (stringValue ok.PodName)),
        ("pod_ip", .str (stringValue ok.PodIP)),
        ("namespace", .str (stringValue ok.Namespace)),
        ("service_account", .str (stringValue ok.ServiceAccount)),
        ("count", .num ok.Count) ] := by
  rfl

/-- The encoding does not depend on the state of the mutex. -/
theorem marshal_mutex (ok : Ok) (m : sync.Mutex) :
    marshal { ok with Mutex := m } = marshal ok := by
  rw [marshal_eq, marshal_eq]

/-- One invocation on a record whose mutex is free: the final context. -/
theorem handlerCtx_eq (ok : Ok) (h : ok.Mutex.locked = false) :
    handlerCtx ok = some
      { ok := incremented ok
        written := some (.JSON 200 (marshal (incremented ok)))
        trace := [.acquire, .increment,
                  .write (.JSON 200 (marshal (incremented ok))), .release] } := by
  obtain ⟨⟨l⟩, v, nn, pn, pi, ns, sa, c⟩ := ok
  simp only at h
  subst h
  simp only [handlerCtx, handlerBody, exec, runDeferred, Call.run, incremented,
    Bool.false_eq_true, if_false, if_true, Option.bind, List.nil_append, List.cons_append,
    marshal_eq]

theorem handler_eq (ok : Ok) (h : ok.Mutex.locked = false) :
    handler ok = some (incremented ok, .JSON 200 (marshal (incremented ok))) := by
  simp [handler, handlerCtx_eq ok h]

/-- A request the handler cannot start on: the mutex is held and nobody
releases it. -/
theorem handler_locked (ok : Ok) (h : ok.Mutex.locked = true) : handler ok = none := by
  simp [handler, handlerCtx, handlerBody, exec, Call.run, h]

theorem serve_getRoot (ok : Ok) (h : ok.Mutex.locked = false) :
    serve ok getRoot = some (incremented ok, .JSON 200 (marshal (incremented ok))) := by
  simp [serve, getRoot, handler_eq ok h]

theorem incremented_locked (ok : Ok) : (incremented ok).Mutex = ok.Mutex := rfl

theorem incrementedBy_succ (ok : Ok) (n : Nat) :
    incrementedBy ok (n + 1) = incremented (incrementedBy ok n) := by
  simp only [incrementedBy, Function.iterate_succ_apply']

theorem incrementedBy_incremented (ok : Ok) (n : Nat) :
    incrementedBy (incremented ok) n = incrementedBy ok (n + 1) := by
  simp only [incrementedBy, Function.iterate_succ_apply]

/-- Only `Count` differs after any number of increments. -/
theorem incrementedBy_frame (ok : Ok) (n : Nat) :
    incrementedBy ok n = { ok with Count := (incrementedBy ok n).Count } := by
  induction n with
  | zero => rfl
  | succ n ih =>
    rw [incrementedBy_succ]
    generalize incrementedBy ok n = x at ih
    rw [ih]
    rfl

/-- The counter after `n + 1` increments is the wrapped sum. -/
theorem incrementedBy_Count (ok : Ok) (n : Nat) :
    (incrementedBy ok (n + 1)).Count = wrapInt (ok.Count + (n + 1 : Nat)) := by
  induction n with
  | zero => rfl
  | succ n ih =>
    rw [incrementedBy_succ]
    show wrapInt ((incrementedBy ok (n + 1)).Count + 1) = _
    rw [ih, wrapInt_succ]
    congr 1
    push_cast
    ring

/-- The outcome of `n` requests `GET /` handled one after another: the
record has been incremented `n` times and the `k`-th response (counting from
zero) is the encoding of the record after `k + 1` increments. -/
theorem serveAll_replicate (n : Nat) (ok : Ok) (h : ok.Mutex.locked = false) :
    serveAll ok (List.replicate n getRoot) = some
      (incrementedBy ok n,
       (List.range n).map
         (fun k => Response.JSON 200 (marshal (incrementedBy ok (k + 1))))) := by
  induction n generalizing ok with
  | zero => rfl
  | succ n ih =>
    have h1 : (incremented ok).Mutex.locked = false := h
    rw [List.replicate_succ, serveAll, serve_getRoot ok h]
    simp only
    rw [ih (incremented ok) h1, List.range_succ_eq_map, List.map_cons, List.map_map]
    simp only [incrementedBy_incremented]
    rfl

theorem count_marshal (code : Nat) (ok : Ok) :
    (Response.JSON code (marshal ok)).count = some ok.Count := by
  simp [Response.count, marshal_eq, List.lookup]

/-- The `count` values of `n` successive responses from a record whose
counter is `0`. -/
theorem counts_of_replicate (n : Nat) (ok : Ok) (h0 : ok.Count = 0) :
    ((List.range n).map
        (fun k => Response.JSON 200 (marshal (incrementedBy ok (k + 1))))).map Response.count
      = (List.range' 1 n).map (fun k => some (wrapInt (k : Nat))) := by
  rw [List.range'_eq_map_range, List.map_map, List.map_map]
  apply List.map_congr_left
  intro k _
  simp only [Function.comp, count_marshal, incrementedBy_Count, h0]
  congr 2
  push_cast
  ring

theorem incrementedBy_Count_pos (ok : Ok) (n : Nat) (hn : 0 < n) :
    (incrementedBy ok n).Count = wrapInt (ok.Count + (n : Nat)) := by
  obtain ⟨m, rfl⟩ := Nat.exists_eq_succ_of_ne_zero (Nat.pos_iff_ne_zero.mp hn)
  exact incrementedBy_Count ok m

/-! ## The claims on the handler -/

/-- C1 as stated fails at `N = 2^63`: after `2^63` requests on a fresh record
the counter of a 64-bit `int` has wrapped to `-2^63`, so it is not `N`. -/
theorem C1_sequentialCounts_fails_at_overflow : ¬ sequentialCounts (2 ^ 63) [] := by
  rintro ⟨ok1, rs, h, -, hc⟩
  rw [serveAll_replicate (2 ^ 63) (newOk []) rfl] at h
  have h1 : incrementedBy (newOk []) (2 ^ 63) = ok1 := (Prod.mk.inj (Option.some.inj h)).1
  rw [← h1, incrementedBy_Count_pos (newOk []) (2 ^ 63) (Nat.pos_pow_of_pos 63 (by decide))] at hc
  have h0 : (newOk []).Count = 0 := rfl
  rw [h0] at hc
  norm_num [wrapInt] at hc

/-- C1, amended: for every `N < 2^63` and every startup environment, `N`
requests `GET /` handled one after another on the fresh record return the
`count` values `1, 2, ..., N` in this order and leave `Count = N`. -/
theorem C1_sequentialCounts (N : Nat) (env : Env) (hN : N < 2 ^ 63) :
    sequentialCounts N env := by
  refine ⟨_, _, serveAll_replicate N (newOk env) rfl, ?_, ?_⟩
  · rw [counts_of_replicate N (newOk env) rfl]
    apply List.map_congr_left
    intro k hk
    have hk2 : k < 1 + N := (List.mem_range'_1.mp hk).2
    rw [wrapInt_of_range (k : Int) (by omega) (by omega)]
  · rcases Nat.eq_zero_or_pos N with h0 | hpos
    · subst h0
      rfl
    · rw [incrementedBy_Count_pos (newOk env) N hpos]
      have h0 : (newOk env).Count = 0 := rfl
      rw [h0, wrapInt_of_range _ (by omega) (by omega)]
      simp

/-- Witness of C1 at three requests. -/
theorem C1_sequentialCounts_witness :
    3 < 2 ^ 63 ∧ sequentialCounts 3 [("POD_NAME", "p1")] :=
  ⟨by decide, C1_sequentialCounts 3 [("POD_NAME", "p1")] (by decide)⟩

/-! ## Identity fields and the shape of the response -/

/-- The identity members of the encoding of a record. -/
theorem fields_marshal (code : Nat) (ok : Ok) :
    (Response.JSON code (marshal ok)).field "version" = some (stringValue ok.Version)
      ∧ (Response.JSON code (marshal ok)).field "node_name" = some (stringValue ok.NodeName)
      ∧ (Response.JSON code (marshal ok)).field "pod_name" = some (stringValue ok.PodName)
      ∧ (Response.JSON code (marshal ok)).field "pod_ip" = some (stringValue ok.PodIP)
      ∧ (Response.JSON code (marshal ok)).field "namespace" = some (stringValue ok.Namespace)
      ∧ (Response.JSON code (marshal ok)).field "service_account"
          = some (stringValue ok.ServiceAccount) := by
  refine ⟨?_, ?_, ?_, ?_, ?_, ?_⟩ <;> simp [Response.field, marshal_eq, List.lookup]

/-- The identity fields and the mutex after any number of increments. -/
theorem incrementedBy_fields (ok : Ok) (n : Nat) :
    (incrementedBy ok n).Mutex = ok.Mutex
      ∧ (incrementedBy ok n).Version = ok.Version
      ∧ (incrementedBy ok n).NodeName = ok.NodeName
      ∧ (incrementedBy ok n).PodName = ok.PodName
      ∧ (incrementedBy ok n).PodIP = ok.PodIP
      ∧ (incrementedBy ok n).Namespace = ok.Namespace
      ∧ (incrementedBy ok n).ServiceAccount = ok.ServiceAccount := by
  have e := incrementedBy_frame ok n
  generalize incrementedBy ok n = x at e
  rw [e]
  exact ⟨rfl, rfl, rfl, rfl, rfl, rfl, rfl⟩

theorem Getenv_eq (env : Env) (key : GoString) :
    Getenv env key = (env.lookup key).getD [] := rfl

/-- What every response of `n` successive requests `GET /` holds, for every
startup environment: the build version and, for each identity variable, the
value `encoding/json` gives to its startup value, where every byte outside a
well-formed UTF-8 sequence has become U+FFFD. -/
theorem identity_fields_of_replicate (env : Env) (n : Nat) :
    ∃ ok1 rs, serveAll (newOk env) (List.replicate n getRoot) = some (ok1, rs)
      ∧ rs.length = n
      ∧ ∀ r ∈ rs,
          r.field "version" = some (utf8 "0.0.0")
          ∧ r.field "node_name"
              = some (stringValue ((env.lookup (utf8 "NODE_NAME")).getD []))
          ∧ r.field "pod_name"
              = some (stringValue ((env.lookup (utf8 "POD_NAME")).getD []))
          ∧ r.field "pod_ip"
              = some (stringValue ((env.lookup (utf8 "POD_IP")).getD []))
          ∧ r.field "namespace"
              = some (stringValue ((env.lookup (utf8 "NAMESPACE")).getD []))
          ∧ r.field "service_account"
              = some (stringValue ((env.lookup (utf8 "SERVICE_ACCOUNT")).getD [])) := by
  refine ⟨_, _, serveAll_replicate n (newOk env) rfl, by simp, ?_⟩
  intro r hr
  obtain ⟨k, -, rfl⟩ := List.mem_map.mp hr
  obtain ⟨f1, f2, f3, f4, f5, f6⟩ := fields_marshal 200 (incrementedBy (newOk env) (k + 1))
  obtain ⟨-, e1, e2, e3, e4, e5, e6⟩ := incrementedBy_fields (newOk env) (k + 1)
  refine ⟨?_, ?_, ?_, ?_, ?_, ?_⟩
  · rw [f1, e1]
    show some (stringValue (utf8 "0.0.0")) = some (utf8 "0.0.0")
    decide
  · rw [f2, e2]
    exact congrArg (fun s => some (stringValue s)) (getEnv_empty_fallback env (utf8 "NODE_NAME"))
  · rw [f3, e3]
    exact congrArg (fun s => some (stringValue s)) (getEnv_empty_fallback env (utf8 "POD_NAME"))
  · rw [f4, e4]
    exact congrArg (fun s => some (stringValue s)) (getEnv_empty_fallback env (utf8 "POD_IP"))
  · rw [f5, e5]
    exact congrArg (fun s => some (stringValue s)) (getEnv_empty_fallback env (utf8 "NAMESPACE"))
  · rw [f6, e6]
    exact congrArg (fun s => some (stringValue s))
      (getEnv_empty_fallback env (utf8 "SERVICE_ACCOUNT"))

/-- The response to one request on a record whose mutex is free, for every
content of the fields: each string member is the value `encoding/json` gives
to the field. -/
theorem handler_response (ok : Ok) (h : ok.Mutex.locked = false) :
    ∃ ok1, handler ok = some (ok1,
        .JSON 200
          [ ("version", .str (stringValue ok.Version)),
            ("node_name", .str (stringValue ok.NodeName)),
            ("pod_name", .str (stringValue ok.PodName)),
            ("pod_ip", .str (stringValue ok.PodIP)),
            ("namespace", .str (stringValue ok.Namespace)),
            ("service_account", .str (stringValue ok.ServiceAccount)),
            ("count", .num ok1.Count) ])
      ∧ ok1.Count = (ok.Count + 1 + 2 ^ 63) % 2 ^ 64 - 2 ^ 63
      ∧ ok1 = { ok with Count := ok1.Count } :=
  ⟨incremented ok, by rw [handler_eq ok h, marshal_eq]; rfl, rfl, rfl⟩

/-- The restriction of C7 to valid UTF-8 is exact: on a record whose mutex is
free the response has the stated shape if and only if the six string fields
are valid UTF-8. -/
theorem responseShape_iff (ok : Ok) (h : ok.Mutex.locked = false) :
    responseShape ok ↔
      ValidUTF8 ok.Version ∧ ValidUTF8 ok.NodeName ∧ ValidUTF8 ok.PodName
        ∧ ValidUTF8 ok.PodIP ∧ ValidUTF8 ok.Namespace ∧ ValidUTF8 ok.ServiceAccount := by
  obtain ⟨ok2, h2, hc2, -⟩ := handler_response ok h
  constructor
  · rintro ⟨ok1, obj, hh, -, -, ho⟩
    rw [h2] at hh
    obtain ⟨-, hr⟩ := Prod.mk.inj (Option.some.inj hh)
    have hobj := (Response.JSON.inj hr).2
    rw [ho] at hobj
    simp only [List.cons.injEq, Prod.mk.injEq, JsonValue.str.injEq, true_and] at hobj
    obtain ⟨e1, e2, e3, e4, e5, e6, -⟩ := hobj
    exact ⟨valid_of_stringValue_eq _ e1, valid_of_stringValue_eq _ e2,
      valid_of_stringValue_eq _ e3, valid_of_stringValue_eq _ e4,
      valid_of_stringValue_eq _ e5, valid_of_stringValue_eq _ e6⟩
  · rintro ⟨h1, h2v, h3, h4, h5, h6⟩
    rw [stringValue_of_valid _ h1, stringValue_of_valid _ h2v, stringValue_of_valid _ h3,
      stringValue_of_valid _ h4, stringValue_of_valid _ h5, stringValue_of_valid _ h6] at h2
    exact ⟨ok2, _, h2, hc2, rfl, rfl⟩

/-- The restriction of C5 to valid UTF-8 is exact: as soon as one request is
handled, the identity fields of the responses are the startup values if and
only if these are valid UTF-8. -/
theorem identityStable_iff (env : Env) (n : Nat) (hn : 0 < n) :
    identityStable env n ↔
      ValidUTF8 ((env.lookup (utf8 "NODE_NAME")).getD [])
        ∧ ValidUTF8 ((env.lookup (utf8 "POD_NAME")).getD [])
        ∧ ValidUTF8 ((env.lookup (utf8 "POD_IP")).getD [])
        ∧ ValidUTF8 ((env.lookup (utf8 "NAMESPACE")).getD [])
        ∧ ValidUTF8 ((env.lookup (utf8 "SERVICE_ACCOUNT")).getD []) := by
  obtain ⟨ok2, rs2, hs2, hl2, hr2⟩ := identity_fields_of_replicate env n
  constructor
  · rintro ⟨⟨ok1, rs, hs, -, hr⟩, -⟩
    rw [hs2] at hs
    obtain ⟨-, rfl⟩ := Prod.mk.inj (Option.some.inj hs)
    obtain ⟨r, hm⟩ := List.exists_mem_of_length_pos (by rw [hl2]; exact hn)
    obtain ⟨-, a2, a3, a4, a5, a6⟩ := hr r hm
    obtain ⟨-, b2, b3, b4, b5, b6⟩ := hr2 r hm
    rw [a2] at b2
    rw [a3] at b3
    rw [a4] at b4
    rw [a5] at b5
    rw [a6] at b6
    exact ⟨valid_of_stringValue_eq _ (Option.some.inj b2).symm,
      valid_of_stringValue_eq _ (Option.some.inj b3).symm,
      valid_of_stringValue_eq _ (Option.some.inj b4).symm,
      valid_of_stringValue_eq _ (Option.some.inj b5).symm,
      valid_of_stringValue_eq _ (Option.some.inj b6).symm⟩
  · rintro ⟨h1, h2, h3, h4, h5⟩
    refine ⟨⟨ok2, rs2, hs2, hl2, fun r hm => ?_⟩, fun ok h => ⟨_, _, handler_eq ok h, rfl⟩⟩
    have hf := hr2 r hm
    rw [stringValue_of_valid _ h1, stringValue_of_valid _ h2, stringValue_of_valid _ h3,
      stringValue_of_valid _ h4, stringValue_of_valid _ h5] at hf
    exact hf

/-- C5 as stated fails on the startup environment `NODE_NAME=<0xFF>`: the
response carries `node_name` U+FFFD (bytes `EF BF BD`), not the startup
value. -/
theorem C5_identityStable_fails_on_invalid_utf8 :
    ¬ identityStable [(utf8 "NODE_NAME", [0xFF])] 1 := by
  rintro ⟨⟨ok1, rs, h, -, hr⟩, -⟩
  have e : serveAll (newOk [(utf8 "NODE_NAME", [0xFF])]) (List.replicate 1 getRoot)
      = some (incrementedBy (newOk [(utf8 "NODE_NAME", [0xFF])]) 1,
          [.JSON 200
            [ ("version", .str (utf8 "0.0.0")),
              ("node_name", .str [0xEF, 0xBF, 0xBD]),
              ("pod_name", .str []),
              ("pod_ip", .str []),
              ("namespace", .str []),
              ("service_account", .str []),
              ("count", .num 1) ]]) := by
    decide
  rw [e] at h
  obtain ⟨-, rfl⟩ := Prod.mk.inj (Option.some.inj h)
  have h2 := (hr _ (List.mem_singleton.mpr rfl)).2.1
  revert h2
  decide

/-- C5, amended: for every startup environment in which the values of
`NODE_NAME`, `POD_NAME`, `POD_IP`, `NAMESPACE`, `SERVICE_ACCOUNT` are valid
UTF-8 (or unset) and every number `n` of requests `GET /` handled one after
another, all requests are answered, in every response `version` is `0.0.0` and
`node_name`, `pod_name`, `pod_ip`, `namespace`, `service_account` are the
startup values of the five variables (the empty string when unset), hence
identical across responses; and on every record the handler returns a record
that differs from it in no field other than `Count`. -/
theorem C5_identityStable (env : Env) (n : Nat)
    (h1 : ValidUTF8 ((env.lookup (utf8 "NODE_NAME")).getD []))
    (h2 : ValidUTF8 ((env.lookup (utf8 "POD_NAME")).getD []))
    (h3 : ValidUTF8 ((env.lookup (utf8 "POD_IP")).getD []))
    (h4 : ValidUTF8 ((env.lookup (utf8 "NAMESPACE")).getD []))
    (h5 : ValidUTF8 ((env.lookup (utf8 "SERVICE_ACCOUNT")).getD [])) :
    identityStable env n := by
  constructor
  · obtain ⟨ok1, rs, hs, hl, hr⟩ := identity_fields_of_replicate env n
    refine ⟨ok1, rs, hs, hl, fun r hm => ?_⟩
    have hf := hr r hm
    rw [stringValue_of_valid _ h1, stringValue_of_valid _ h2, stringValue_of_valid _ h3,
      stringValue_of_valid _ h4, stringValue_of_valid _ h5] at hf
    exact hf
  · intro ok h
    exact ⟨_, _, handler_eq ok h, rfl⟩

/-- Witness of C5: with `NODE_NAME=n1` and `POD_NAME=p1`, two requests are
answered with `node_name` `n1` and `pod_name` `p1` and the counts 1 and 2. -/
theorem C5_identityStable_witness :
    ValidUTF8 (utf8 "n1") ∧ ValidUTF8 (utf8 "p1") ∧ ValidUTF8 []
    ∧ identityStable [(utf8 "NODE_NAME", utf8 "n1"), (utf8 "POD_NAME", utf8 "p1")] 2
    ∧ serveAll (newOk [(utf8 "NODE_NAME", utf8 "n1"), (utf8 "POD_NAME", utf8 "p1")])
        [getRoot, getRoot]
      = some
          (⟨⟨false⟩, utf8 "0.0.0", utf8 "n1", utf8 "p1", [], [], [], 2⟩,
           [ .JSON 200
               [ ("version", .str (utf8 "0.0.0")),
                 ("node_name", .str (utf8 "n1")),
                 ("pod_name", .str (utf8 "p1")),
                 ("pod_ip", .str []),
                 ("namespace", .str []),
                 ("service_account", .str []),
                 ("count", .num 1) ],
             .JSON 200
               [ ("version", .str (utf8 "0.0.0")),
                 ("node_name", .str (utf8 "n1")),
                 ("pod_name", .str (utf8 "p1")),
                 ("pod_ip", .str []),
                 ("namespace", .str []),
                 ("service_account", .str []),
                 ("count", .num 2) ] ]) :=
  ⟨validUTF8_of_ascii _ (by decide), validUTF8_of_ascii _ (by decide), .nil,
   C5_identityStable [(utf8 "NODE_NAME", utf8 "n1"), (utf8 "POD_NAME", utf8 "p1")] 2
     (validUTF8_of_ascii _ (by decide)) (validUTF8_of_ascii _ (by decide)) .nil .nil .nil,
   by decide⟩

/-- C7 as stated fails on a record whose `NodeName` is the byte `0xFF`: the
member `node_name` of the response is U+FFFD, not the field of the record. -/
theorem C7_responseShape_fails_on_invalid_utf8 :
    ¬ responseShape ⟨⟨false⟩, utf8 "0.0.0", [0xFF], [], [], [], [], 0⟩ := by
  rintro ⟨ok1, obj, h, -, -, ho⟩
  obtain ⟨ok2, h2, -, -⟩ :=
    handler_response ⟨⟨false⟩, utf8 "0.0.0", [0xFF], [], [], [], [], 0⟩ rfl
  rw [h2] at h
  obtain ⟨-, hr⟩ := Prod.mk.inj (Option.some.inj h)
  have hobj := (Response.JSON.inj hr).2
  rw [ho] at hobj
  have hn := (List.cons.inj (List.cons.inj hobj).2).1
  revert hn
  decide

/-- C7, amended: on every record whose six string fields are valid UTF-8 (its
mutex free, as it is whenever the handler gets the lock) the handler answers
with status 200 and a JSON object whose members are exactly `version`,
`node_name`, `pod_name`, `pod_ip`, `namespace`, `service_account`, `count` in
this order; the six strings are the fields of the record and `count` is the
record's `Count` after the increment of a 64-bit integer. No member comes from
the embedded mutex. -/
theorem C7_responseShape (ok : Ok) (h : ok.Mutex.locked = false)
    (h1 : ValidUTF8 ok.Version) (h2 : ValidUTF8 ok.NodeName) (h3 : ValidUTF8 ok.PodName)
    (h4 : ValidUTF8 ok.PodIP) (h5 : ValidUTF8 ok.Namespace)
    (h6 : ValidUTF8 ok.ServiceAccount) :
    responseShape ok := by
  obtain ⟨ok1, hh, hc, -⟩ := handler_response ok h
  rw [stringValue_of_valid _ h1, stringValue_of_valid _ h2, stringValue_of_valid _ h3,
    stringValue_of_valid _ h4, stringValue_of_valid _ h5, stringValue_of_valid _ h6] at hh
  exact ⟨ok1, _, hh, hc, rfl, rfl⟩

/-- Witness of C7: a record that has counted 41 requests answers with
`count` 42 and its six strings. -/
theorem C7_responseShape_witness :
    (Ok.mk ⟨false⟩ (utf8 "0.0.0") (utf8 "n1") (utf8 "p1") (utf8 "10.1.2.3")
        (utf8 "default") (utf8 "sa") 41).Mutex.locked = false
    ∧ responseShape
        (Ok.mk ⟨false⟩ (utf8 "0.0.0") (utf8 "n1") (utf8 "p1") (utf8 "10.1.2.3")
          (utf8 "default") (utf8 "sa") 41)
    ∧ handler (Ok.mk ⟨false⟩ (utf8 "0.0.0") (utf8 "n1") (utf8 "p1") (utf8 "10.1.2.3")
          (utf8 "default") (utf8 "sa") 41)
      = some
          (Ok.mk ⟨false⟩ (utf8 "0.0.0") (utf8 "n1") (utf8 "p1") (utf8 "10.1.2.3")
            (utf8 "default") (utf8 "sa") 42,
           .JSON 200
             [ ("version", .str (utf8 "0.0.0")),
               ("node_name", .str (utf8 "n1")),
               ("pod_name", .str (utf8 "p1")),
               ("pod_ip", .str (utf8 "10.1.2.3")),
               ("namespace", .str (utf8 "default")),
               ("service_account", .str (utf8 "sa")),
               ("count", .num 42) ]) :=
  ⟨rfl,
   C7_responseShape
     (Ok.mk ⟨false⟩ (utf8 "0.0.0") (utf8 "n1") (utf8 "p1") (utf8 "10.1.2.3")
       (utf8 "default") (utf8 "sa") 41) rfl
     (validUTF8_of_ascii _ (by decide)) (validUTF8_of_ascii _ (by decide))
     (validUTF8_of_ascii _ (by decide)) (validUTF8_of_ascii _ (by decide))
     (validUTF8_of_ascii _ (by decide)) (validUTF8_of_ascii _ (by decide)),
   by decide⟩

/-! ## Lock span and routing -/

/-- C8 as stated fails on the record built at startup: in the trace of the
handler the response is written at position 2 and the unlock, deferred to the
return of the handler, is at position 3. -/
theorem C8_unlock_is_after_write : ¬ unlockBeforeWrite (newOk []) := by
  rintro ⟨t, ht, -, hlt⟩
  rw [handlerTrace, handlerCtx_eq (newOk []) rfl] at ht
  cases ht
  revert hlt
  decide

/-- C8, amended: in every execution of the handler the events are, in this
order, acquire, increment, write of the response, release; the response is
serialized and written while the lock is held, and the unlock, deferred to the
return of the handler, follows the write. -/
theorem C8_write_under_lock (ok : Ok) (h : ok.Mutex.locked = false) :
    ∃ t, handlerTrace ok = some t
      ∧ t = [.acquire, .increment,
             .write (.JSON 200 (marshal (incremented ok))), .release]
      ∧ position Event.isWrite t < position Event.isRelease t
      ∧ position Event.isRelease t < t.length
      ∧ lockHeldAt t (position Event.isWrite t) = true := by
  refine ⟨_, by rw [handlerTrace, handlerCtx_eq ok h]; rfl, rfl, ?_, ?_, ?_⟩ <;>
    simp [position, List.findIdx_cons, Event.isWrite, Event.isRelease, lockHeldAt]

/-- Witness of C8 on the record built at startup. -/
theorem C8_write_under_lock_witness :
    (newOk []).Mutex.locked = false
    ∧ ∃ t, handlerTrace (newOk []) = some t
      ∧ t = [.acquire, .increment,
             .write (.JSON 200 (marshal (incremented (newOk [])))), .release]
      ∧ position Event.isWrite t < position Event.isRelease t
      ∧ position Event.isRelease t < t.length
      ∧ lockHeldAt t (position Event.isWrite t) = true :=
  ⟨rfl, C8_write_under_lock (newOk []) rfl⟩

/-- C10: a request whose method is not `GET` or whose path is not `/` is
answered by the routing layer and leaves the record, `Count` and every other
field, as it was. -/
theorem C10_other_requests_leave_record (ok : Ok) (req : Request)
    (h : req.method ≠ "GET" ∨ req.path ≠ "/") :
    serve ok req = some (ok, .noRoute) := by
  have hn : ¬ (req.method = "GET" ∧ req.path = "/") := by
    rintro ⟨hm, hp⟩
    rcases h with h | h
    · exact h hm
    · exact h hp
  simp [serve, hn]

/-- Witness of C10: `POST /` on the record built at startup. -/
theorem C10_other_requests_leave_record_witness :
    ((Request.mk "POST" "/").method ≠ "GET" ∨ (Request.mk "POST" "/").path ≠ "/")
    ∧ serve (newOk []) (Request.mk "POST" "/") = some (newOk [], .noRoute) :=
  ⟨by decide, C10_other_requests_leave_record (newOk []) (Request.mk "POST" "/") (by decide)⟩

/-! ## Concurrent requests: the invariant -/

theorem sum_map_set {α : Type} (f : α → Nat) (l : List α) (i : Nat) (x a : α)
    (h : l[i]? = some a) :
    ((l.set i x).map f).sum + f a = (l.map f).sum + f x := by
  induction l generalizing i with
  | nil => simp at h
  | cons b l ih =>
    cases i with
    | zero =>
      simp only [List.getElem?_cons_zero, Option.some.injEq] at h
      subst h
      simp only [List.set_cons_zero, List.map_cons, List.sum_cons]
      omega
    | succ i =>
      simp only [List.getElem?_cons_succ] at h
      have := ih i h
      simp only [List.set_cons_succ, List.map_cons, List.sum_cons]
      omega

theorem filterMap_set_same {α β : Type} (f : α → Option β) (l : List α) (i : Nat)
    (x a : α) (h : l[i]? = some a) (hx : f x = f a) :
    (l.set i x).filterMap f = l.filterMap f := by
  induction l generalizing i with
  | nil => simp at h
  | cons b l ih =>
    cases i with
    | zero =>
      simp only [List.getElem?_cons_zero, Option.some.injEq] at h
      subst h
      simp only [List.set_cons_zero, List.filterMap_cons, hx]
    | succ i =>
      simp only [List.getElem?_cons_succ] at h
      simp only [List.set_cons_succ, List.filterMap_cons, ih i h]

theorem filterMap_set_some {α β : Type} (f : α → Option β) (l : List α) (i : Nat)
    (x a : α) (y : β) (h : l[i]? = some a) (ha : f a = none) (hx : f x = some y) :
    ((l.set i x).filterMap f).Perm (y :: l.filterMap f) := by
  induction l generalizing i with
  | nil => simp at h
  | cons b l ih =>
    cases i with
    | zero =>
      simp only [List.getElem?_cons_zero, Option.some.injEq] at h
      subst h
      simp only [List.set_cons_zero, List.filterMap_cons, hx, ha]
      exact List.Perm.refl _
    | succ i =>
      simp only [List.getElem?_cons_succ] at h
      simp only [List.set_cons_succ, List.filterMap_cons]
      cases hb : f b with
      | none => exact ih i h
      | some z =>
        exact ((ih i h).cons z).trans (List.Perm.swap y z _)

theorem le_sum_of_mem {α : Type} (f : α → Nat) (l : List α) (a : α) (h : a ∈ l) :
    f a ≤ (l.map f).sum := by
  induction l with
  | nil => simp at h
  | cons b l ih =>
    simp only [List.map_cons, List.sum_cons]
    rcases List.mem_cons.mp h with rfl | h
    · omega
    · have := ih h
      omega

theorem exists_pos_of_sum_pos {α : Type} (f : α → Nat) (l : List α)
    (h : 0 < (l.map f).sum) : ∃ a ∈ l, 0 < f a := by
  induction l with
  | nil => simp at h
  | cons b l ih =>
    simp only [List.map_cons, List.sum_cons] at h
    by_cases hb : 0 < f b
    · exact ⟨b, List.mem_cons_self _ _, hb⟩
    · obtain ⟨a, ha, hp⟩ := ih (by omega)
      exact ⟨a, List.mem_cons_of_mem _ ha, hp⟩

/-- The invariant holds before any request has started. -/
theorem Inv_start (N : Nat) (ok : Ok) (hl : ok.Mutex.locked = false) (h0 : ok.Count = 0) :
    Inv N (Server.start ok N) := by
  refine ⟨List.replicate N .idle, ?_, ?_, ?_, ?_, ?_⟩
  · simp [Server.start, Stage.toG]
  · simp
  · simp [Server.start, hl, Stage.holds]
  · simp [Server.start, h0, Stage.ahead, Stage.answered, wrapInt]
  · have e : (List.replicate N Stage.idle).filterMap Stage.count = [] := by
      rw [List.filterMap_eq_nil_iff]
      intro s hs
      rw [(List.mem_replicate.mp hs).2]
      rfl
    rw [e]
    simp [Stage.answered]

theorem step_idle (w : Server) (ss : List Stage) (i : Nat) (hg : w.gs = ss.map Stage.toG)
    (hsi : ss[i]? = some .idle) :
    w.step i = if w.ok.Mutex.locked then none
      else some ⟨{ w.ok with Mutex := ⟨true⟩ }, (ss.set i .locked).map Stage.toG,
        w.trace ++ [.acquire]⟩ := by
  unfold Server.step
  rw [hg, List.getElem?_map, hsi]
  by_cases hl : w.ok.Mutex.locked = true
  · simp [Goroutine.step, Stage.toG, handlerBody, Call.run, hl]
  · simp [Goroutine.step, Stage.toG, handlerBody, Call.run, hl, List.map_set]

theorem step_locked (w : Server) (ss : List Stage) (i : Nat) (hg : w.gs = ss.map Stage.toG)
    (hsi : ss[i]? = some .locked) :
    w.step i = some ⟨w.ok, (ss.set i .deferred).map Stage.toG, w.trace⟩ := by
  unfold Server.step
  rw [hg, List.getElem?_map, hsi]
  simp [Goroutine.step, Stage.toG, List.map_set]

theorem step_deferred (w : Server) (ss : List Stage) (i : Nat) (hg : w.gs = ss.map Stage.toG)
    (hsi : ss[i]? = some .deferred) :
    w.step i = some ⟨incremented w.ok, (ss.set i .incremented).map Stage.toG,
      w.trace ++ [.increment]⟩ := by
  unfold Server.step
  rw [hg, List.getElem?_map, hsi]
  simp [Goroutine.step, Stage.toG, Call.run, List.map_set, incremented]

theorem step_incremented (w : Server) (ss : List Stage) (i : Nat)
    (hg : w.gs = ss.map Stage.toG) (hsi : ss[i]? = some .incremented) :
    w.step i = some ⟨w.ok, (ss.set i (.written (.JSON 200 (marshal w.ok)))).map Stage.toG,
      w.trace ++ [.write (.JSON 200 (marshal w.ok))]⟩ := by
  unfold Server.step
  rw [hg, List.getElem?_map, hsi]
  simp [Goroutine.step, Stage.toG, Call.run, List.map_set]

theorem step_written (w : Server) (ss : List Stage) (i : Nat) (r : Response)
    (hg : w.gs = ss.map Stage.toG) (hsi : ss[i]? = some (.written r)) :
    w.step i = if w.ok.Mutex.locked then
        some ⟨{ w.ok with Mutex := ⟨false⟩ }, (ss.set i (.finished r)).map Stage.toG,
          w.trace ++ [.release]⟩
      else none := by
  unfold Server.step
  rw [hg, List.getElem?_map, hsi]
  by_cases hl : w.ok.Mutex.locked = true
  · simp [Goroutine.step, Stage.toG, Call.run, hl, List.map_set]
  · simp [Goroutine.step, Stage.toG, Call.run, hl]

theorem step_finished (w : Server) (ss : List Stage) (i : Nat) (r : Response)
    (hg : w.gs = ss.map Stage.toG) (hsi : ss[i]? = some (.finished r)) :
    w.step i = none := by
  unfold Server.step
  rw [hg, List.getElem?_map, hsi]
  simp [Goroutine.step, Stage.toG]

theorem step_none (w : Server) (ss : List Stage) (i : Nat)
    (hg : w.gs = ss.map Stage.toG) (hsi : ss[i]? = none) :
    w.step i = none := by
  unfold Server.step
  rw [hg, List.getElem?_map, hsi]
  rfl

theorem holds_eq (ss : List Stage) :
    (ss.map Stage.holds).sum = (ss.map Stage.ahead).sum + (ss.map Stage.settled).sum := by
  induction ss with
  | nil => rfl
  | cons s ss ih =>
    simp only [List.map_cons, List.sum_cons, ih]
    cases s <;> simp [Stage.holds, Stage.ahead, Stage.settled] <;> omega

theorem lockbit_le (b : Bool) : (if b = true then 1 else 0 : Nat) ≤ 1 := by
  cases b <;> simp

/-- Every step keeps the invariant and takes one of the remaining steps. -/
theorem Inv_step (N : Nat) (w w1 : Server) (i : Nat) (h : Inv N w)
    (hs : w.step i = some w1) : Inv N w1 := by
  obtain ⟨ss, hg, hlen, hH, hC, hP⟩ := h
  have hHA := holds_eq ss
  have hbit := lockbit_le w.ok.Mutex.locked
  cases hsi : ss[i]? with
  | none =>
    rw [step_none w ss i hg hsi] at hs
    exact absurd hs (by simp)
  | some s =>
    have eH := fun x => sum_map_set Stage.holds ss i x s hsi
    have eA := fun x => sum_map_set Stage.ahead ss i x s hsi
    have eM := fun x => sum_map_set Stage.answered ss i x s hsi
    have hmem : s ∈ ss := List.getElem?_mem hsi
    cases s with
    | idle =>
      rw [step_idle w ss i hg hsi] at hs
      by_cases hl : w.ok.Mutex.locked = true
      · simp [hl] at hs
      · rw [if_neg hl, Option.some.injEq] at hs
        subst hs
        have e1 := eH .locked
        have e2 := eA .locked
        have e3 := eM .locked
        simp only [Stage.holds, Stage.ahead, Stage.answered] at e1 e2 e3
        rw [if_neg hl] at hH
        have e : (List.map Stage.answered (ss.set i .locked)).sum
            = (List.map Stage.answered ss).sum := by omega
        refine ⟨ss.set i .locked, rfl, by simp [hlen], ?_, ?_, ?_⟩
        · show _ = if true = true then 1 else 0
          rw [if_pos rfl]
          omega
        · show w.ok.Count = _
          rw [hC]
          congr 2
          omega
        · rw [filterMap_set_same Stage.count ss i .locked .idle hsi rfl, e]
          exact hP
    | locked =>
      rw [step_locked w ss i hg hsi, Option.some.injEq] at hs
      subst hs
      have e1 := eH .deferred
      have e2 := eA .deferred
      have e3 := eM .deferred
      simp only [Stage.holds, Stage.ahead, Stage.answered] at e1 e2 e3
      have e : (List.map Stage.answered (ss.set i .deferred)).sum
          = (List.map Stage.answered ss).sum := by omega
      refine ⟨ss.set i .deferred, rfl, by simp [hlen], ?_, ?_, ?_⟩
      · show _ = if w.ok.Mutex.locked = true then 1 else 0
        omega
      · show w.ok.Count = _
        rw [hC]
        congr 2
        omega
      · rw [filterMap_set_same Stage.count ss i .deferred .locked hsi rfl, e]
        exact hP
    | deferred =>
      rw [step_deferred w ss i hg hsi, Option.some.injEq] at hs
      subst hs
      have e1 := eH .incremented
      have e2 := eA .incremented
      have e3 := eM .incremented
      simp only [Stage.holds, Stage.ahead, Stage.answered] at e1 e2 e3
      have e : (List.map Stage.answered (ss.set i .incremented)).sum
          = (List.map Stage.answered ss).sum := by omega
      refine ⟨ss.set i .incremented, rfl, by simp [hlen], ?_, ?_, ?_⟩
      · show _ = if w.ok.Mutex.locked = true then 1 else 0
        omega
      · show wrapInt (w.ok.Count + 1) = _
        have hn : (List.map Stage.ahead (ss.set i .incremented)).sum
            + (List.map Stage.answered (ss.set i .incremented)).sum
            = (List.map Stage.ahead ss).sum + (List.map Stage.answered ss).sum + 1 := by
          omega
        rw [hC, wrapInt_succ, hn, Nat.cast_succ]
      · rw [filterMap_set_same Stage.count ss i .incremented .deferred hsi rfl, e]
        exact hP
    | incremented =>
      rw [step_incremented w ss i hg hsi, Option.some.injEq] at hs
      subst hs
      have e1 := eH (.written (.JSON 200 (marshal w.ok)))
      have e2 := eA (.written (.JSON 200 (marshal w.ok)))
      have e3 := eM (.written (.JSON 200 (marshal w.ok)))
      simp only [Stage.holds, Stage.ahead, Stage.answered] at e1 e2 e3
      have hA1 : (List.map Stage.ahead ss).sum = 1 := by omega
      have e : (List.map Stage.answered (ss.set i (.written (.JSON 200 (marshal w.ok))))).sum
          = (List.map Stage.answered ss).sum + 1 := by omega
      refine ⟨ss.set i (.written (.JSON 200 (marshal w.ok))), rfl, by simp [hlen], ?_, ?_, ?_⟩
      · show _ = if w.ok.Mutex.locked = true then 1 else 0
        omega
      · show w.ok.Count = _
        rw [hC]
        congr 2
        omega
      · have hc : Stage.count (.written (.JSON 200 (marshal w.ok))) = some w.ok.Count :=
          count_marshal 200 w.ok
        have hp := filterMap_set_some Stage.count ss i
          (.written (.JSON 200 (marshal w.ok))) .incremented w.ok.Count hsi rfl hc
        rw [e, List.range'_1_concat, List.map_append, List.map_singleton]
        refine hp.trans (((hP.cons _).trans (List.perm_append_singleton _ _).symm).trans ?_)
        rw [hC, hA1]
    | written r =>
      rw [step_written w ss i r hg hsi] at hs
      by_cases hl : w.ok.Mutex.locked = true
      · rw [if_pos hl, Option.some.injEq] at hs
        subst hs
        have e1 := eH (.finished r)
        have e2 := eA (.finished r)
        have e3 := eM (.finished r)
        simp only [Stage.holds, Stage.ahead, Stage.answered] at e1 e2 e3
        rw [if_pos hl] at hH
        have e : (List.map Stage.answered (ss.set i (.finished r))).sum
            = (List.map Stage.answered ss).sum := by omega
        refine ⟨ss.set i (.finished r), rfl, by simp [hlen], ?_, ?_, ?_⟩
        · show _ = if false = true then 1 else 0
          rw [if_neg (by decide)]
          omega
        · show w.ok.Count = _
          rw [hC]
          congr 2
          omega
        · rw [filterMap_set_same Stage.count ss i (.finished r) (.written r) hsi rfl, e]
          exact hP
      · rw [if_neg hl] at hs
        exact absurd hs (by simp)
    | finished r =>
      rw [step_finished w ss i r hg hsi] at hs
      exact absurd hs (by simp)

theorem run_append (w : Server) (a b : List Nat) : w.run (a ++ b) = (w.run a).run b := by
  induction a generalizing w with
  | nil => rfl
  | cons i a ih => exact ih _

/-- The invariant holds along every interleaving. -/
theorem Inv_run (N : Nat) (w : Server) (sched : List Nat) (h : Inv N w) :
    Inv N (w.run sched) := by
  induction sched generalizing w with
  | nil => exact h
  | cons i sched ih =>
    show Inv N (Server.run ((w.step i).getD w) sched)
    cases hs : w.step i with
    | none => exact ih w h
    | some w1 => exact ih w1 (Inv_step N w w1 i h hs)

theorem finished_stage (s : Stage) (h : s.toG.finished = true) :
    s.ahead = 0 ∧ s.answered = 1 := by
  cases s <;> simp_all [Stage.toG, Goroutine.finished, handlerBody, Stage.ahead, Stage.answered]

theorem sums_of_allFinished (ss : List Stage) (h : ∀ s ∈ ss, s.toG.finished = true) :
    (ss.map Stage.ahead).sum = 0 ∧ (ss.map Stage.answered).sum = ss.length := by
  induction ss with
  | nil => exact ⟨rfl, rfl⟩
  | cons s ss ih =>
    obtain ⟨h1, h2⟩ := finished_stage s (h s (List.mem_cons_self _ _))
    obtain ⟨i1, i2⟩ := ih (fun t ht => h t (List.mem_cons_of_mem _ ht))
    rw [List.map_cons, List.sum_cons, List.map_cons, List.sum_cons, List.length_cons,
      h1, h2, i1, i2]
    exact ⟨rfl, by omega⟩

/-- When all requests are answered, the counts returned are the wrapped
numbers `1, ..., N` in some order and the counter is the wrapped `N`. -/
theorem counts_of_allDone (N : Nat) (w : Server) (h : Inv N w) (hd : w.allDone = true) :
    w.counts.Perm ((List.range' 1 N).map (fun (k : Nat) => wrapInt (k : Int)))
      ∧ w.ok.Count = wrapInt (N : Int) := by
  obtain ⟨ss, hg, hlen, -, hC, hP⟩ := h
  have hall : ∀ s ∈ ss, s.toG.finished = true := by
    intro s hs
    have := List.all_eq_true.mp hd (s.toG) (by rw [hg]; exact List.mem_map_of_mem _ hs)
    exact this
  obtain ⟨hA, hM⟩ := sums_of_allFinished ss hall
  rw [hA, hM, hlen] at hC
  rw [hM, hlen] at hP
  refine ⟨?_, by simpa using hC⟩
  have e : w.counts = ss.filterMap Stage.count := by
    unfold Server.counts
    rw [hg, List.filterMap_map]
    rfl
  rw [e]
  exact hP

theorem goroutine_step_remaining (g g1 : Goroutine) (ok ok1 : Ok) (t t1 : List Event)
    (h : g.step ok t = some (g1, ok1, t1)) : g1.remaining < g.remaining := by
  obtain ⟨body, d, wr⟩ := g
  cases body with
  | nil =>
    cases d with
    | nil => simp [Goroutine.step] at h
    | cons c d =>
      simp only [Goroutine.step, Option.map_eq_some'] at h
      obtain ⟨σ, -, hσ⟩ := h
      obtain ⟨rfl, -⟩ := Prod.mk.inj hσ
      simp only [Goroutine.remaining, List.length_cons, List.length_nil]
      omega
  | cons st rest =>
    cases st with
    | call c =>
      simp only [Goroutine.step, Option.map_eq_some'] at h
      obtain ⟨σ, -, hσ⟩ := h
      obtain ⟨rfl, -⟩ := Prod.mk.inj hσ
      simp only [Goroutine.remaining, List.length_cons]
      omega
    | defer c =>
      simp only [Goroutine.step, Option.some.injEq] at h
      obtain ⟨rfl, -⟩ := Prod.mk.inj h
      simp only [Goroutine.remaining, List.length_cons]
      omega

/-- Every step of the server uses up one of the remaining steps. -/
theorem server_step_remaining (w w1 : Server) (i : Nat) (h : w.step i = some w1) :
    w1.remaining < w.remaining := by
  unfold Server.step at h
  cases hg : w.gs[i]? with
  | none => simp [hg] at h
  | some g =>
    simp only [hg] at h
    cases hs : g.step w.ok w.trace with
    | none => simp [hs] at h
    | some r =>
      obtain ⟨g1, ok1, t1⟩ := r
      simp only [hs, Option.some.injEq] at h
      subst h
      have hlt := goroutine_step_remaining g g1 w.ok ok1 w.trace t1 hs
      have e := sum_map_set Goroutine.remaining w.gs i g1 g hg
      show (List.map Goroutine.remaining (w.gs.set i g1)).sum < (w.gs.map Goroutine.remaining).sum
      omega

/-- A goroutine that holds the mutex can always take its next step. -/
theorem holder_steps (w : Server) (ss : List Stage) (k : Nat) (s : Stage)
    (hg : w.gs = ss.map Stage.toG)
    (hH : (ss.map Stage.holds).sum = (if w.ok.Mutex.locked then 1 else 0))
    (hk : ss[k]? = some s) (hs : 0 < s.holds) : ∃ w1, w.step k = some w1 := by
  have hle := le_sum_of_mem Stage.holds ss s (List.getElem?_mem hk)
  have hl : w.ok.Mutex.locked = true := by
    by_contra hl
    rw [if_neg hl] at hH
    omega
  cases s with
  | idle => simp [Stage.holds] at hs
  | locked => exact ⟨_, step_locked w ss k hg hk⟩
  | deferred => exact ⟨_, step_deferred w ss k hg hk⟩
  | incremented => exact ⟨_, step_incremented w ss k hg hk⟩
  | written r => exact ⟨_, by rw [step_written w ss k r hg hk, if_pos hl]⟩
  | finished r => simp [Stage.holds] at hs

/-- No deadlock: while a request is unanswered or its handler has not
returned, some goroutine can take a step. -/
theorem progress (N : Nat) (w : Server) (h : Inv N w) (hnd : w.allDone = false) :
    ∃ i w1, w.step i = some w1 := by
  obtain ⟨ss, hg, -, hH, -, -⟩ := h
  have hex : ∃ s ∈ ss, s.toG.finished = false := by
    by_contra hc
    have hall : w.allDone = true := by
      unfold Server.allDone
      rw [List.all_eq_true]
      intro g hgm
      rw [hg] at hgm
      obtain ⟨s, hs, rfl⟩ := List.mem_map.mp hgm
      by_contra hf
      exact hc ⟨s, hs, by simpa using hf⟩
    rw [hall] at hnd
    exact absurd hnd (by decide)
  obtain ⟨s, hs, hf⟩ := hex
  obtain ⟨j, hj⟩ := List.getElem?_of_mem hs
  by_cases hh : 0 < s.holds
  · obtain ⟨w1, h1⟩ := holder_steps w ss j s hg hH hj hh
    exact ⟨j, w1, h1⟩
  · cases s with
    | idle =>
      by_cases hl : w.ok.Mutex.locked = true
      · rw [if_pos hl] at hH
        obtain ⟨s2, hs2, hp⟩ := exists_pos_of_sum_pos Stage.holds ss (by omega)
        obtain ⟨k, hk⟩ := List.getElem?_of_mem hs2
        obtain ⟨w1, h1⟩ := holder_steps w ss k s2 hg (by rw [hH, if_pos hl]) hk hp
        exact ⟨k, w1, h1⟩
      · exact ⟨j, _, by rw [step_idle w ss j hg hj, if_neg hl]⟩
    | locked => exact absurd (by decide : 0 < Stage.locked.holds) hh
    | deferred => exact absurd (by decide : 0 < Stage.deferred.holds) hh
    | incremented => exact absurd (by decide : 0 < Stage.incremented.holds) hh
    | written r => exact absurd (by simp [Stage.holds] : 0 < (Stage.written r).holds) hh
    | finished r => simp [Stage.toG, Goroutine.finished] at hf

/-- Every interleaving can be continued until all requests are answered. -/
theorem completes (N : Nat) (n : Nat) :
    ∀ w : Server, Inv N w → w.remaining = n → ∃ sched, (w.run sched).allDone = true := by
  induction n using Nat.strong_induction_on with
  | _ n ih =>
    intro w h hn
    cases hd : w.allDone with
    | true => exact ⟨[], hd⟩
    | false =>
      obtain ⟨i, w1, hs⟩ := progress N w h hd
      have hlt := server_step_remaining w w1 i hs
      obtain ⟨sched, hsched⟩ := ih w1.remaining (by omega) w1 (Inv_step N w w1 i h hs) rfl
      refine ⟨i :: sched, ?_⟩
      show (Server.run ((w.step i).getD w) sched).allDone = true
      rw [hs]
      exact hsched

/-- A goroutine alone computes `exec`: a step does not change what `exec`
yields on the rest of the function. -/
theorem step_exec (g g1 : Goroutine) (ok ok1 : Ok) (t t1 : List Event)
    (h : g.step ok t = some (g1, ok1, t1)) :
    exec g.body g.deferred ⟨ok, g.written, t⟩
      = exec g1.body g1.deferred ⟨ok1, g1.written, t1⟩ := by
  obtain ⟨body, d, wr⟩ := g
  cases body with
  | nil =>
    cases d with
    | nil => simp [Goroutine.step] at h
    | cons c d =>
      simp only [Goroutine.step, Option.map_eq_some'] at h
      obtain ⟨σ, hc, hσ⟩ := h
      simp only [Prod.mk.injEq] at hσ
      obtain ⟨rfl, rfl, rfl⟩ := hσ
      simp [exec, runDeferred, hc]
  | cons st rest =>
    cases st with
    | call c =>
      simp only [Goroutine.step, Option.map_eq_some'] at h
      obtain ⟨σ, hc, hσ⟩ := h
      simp only [Prod.mk.injEq] at hσ
      obtain ⟨rfl, rfl, rfl⟩ := hσ
      simp [exec, hc]
    | defer c =>
      simp only [Goroutine.step, Option.some.injEq] at h
      simp only [Prod.mk.injEq] at h
      obtain ⟨rfl, rfl, rfl⟩ := h
      simp [exec]

/-- A goroutine alone computes `exec`: where it has no step, `exec` yields
the state reached if the function has returned, and nothing if it is blocked. -/
theorem no_step_exec (g : Goroutine) (ok : Ok) (t : List Event)
    (h : g.step ok t = none) :
    exec g.body g.deferred ⟨ok, g.written, t⟩
      = if g.finished then some ⟨ok, g.written, t⟩ else none := by
  obtain ⟨body, d, wr⟩ := g
  cases body with
  | nil =>
    cases d with
    | nil => simp [exec, runDeferred, Goroutine.finished]
    | cons c d =>
      simp only [Goroutine.step, Option.map_eq_none'] at h
      simp [exec, runDeferred, h, Goroutine.finished]
  | cons st rest =>
    cases st with
    | call c =>
      simp only [Goroutine.step, Option.map_eq_none'] at h
      simp [exec, h, Goroutine.finished]
    | defer c => simp [Goroutine.step] at h

/-- One request alone: the five steps of its goroutine end in the state and
with the events of `handlerCtx`. -/
theorem run_single (ok : Ok) (h : ok.Mutex.locked = false) :
    (Server.start ok 1).run [0, 0, 0, 0, 0]
      = ⟨incremented ok,
         [⟨[], [], some (.JSON 200 (marshal (incremented ok)))⟩],
         [.acquire, .increment, .write (.JSON 200 (marshal (incremented ok))), .release]⟩ := by
  obtain ⟨⟨l⟩, v, nn, pn, pi, ns, sa, c⟩ := ok
  simp only at h
  subst h
  simp [Server.start, Server.run, Server.step, Goroutine.step, handlerBody, Call.run,
    incremented, marshal_eq]

/-! ## The claim on concurrent requests -/

/-- C6 as stated fails at `N = 2^63`: the interleavings of `2^63` requests can
be completed, and when all are answered the counter of a 64-bit `int` has
wrapped to `-2^63`, so it is not `N`. -/
theorem C6_concurrentCounts_fails_at_overflow : ¬ concurrentCounts (2 ^ 63) [] := by
  rintro ⟨hcomp, hres⟩
  obtain ⟨more, hd⟩ := hcomp []
  rw [List.nil_append] at hd
  obtain ⟨-, -, hc⟩ := hres more hd
  have hinv := Inv_run (2 ^ 63) _ more (Inv_start (2 ^ 63) (newOk []) rfl rfl)
  obtain ⟨-, hc2⟩ := counts_of_allDone _ _ hinv hd
  rw [hc2] at hc
  norm_num [wrapInt] at hc

/-- C6, amended: for every `N < 2^63`, every startup environment and every
interleaving of `N` concurrently handled requests `GET /` on the fresh record,
the interleaving can be continued until all requests are answered (no
deadlock), and whenever all are answered the `count` values returned are
`1, ..., N` in some order, no two requests have the same count, and the final
`Count` is `N`. -/
theorem C6_concurrentCounts (N : Nat) (env : Env) (hN : N < 2 ^ 63) :
    concurrentCounts N env := by
  have hstart := Inv_start N (newOk env) rfl rfl
  constructor
  · intro sched
    obtain ⟨more, hmore⟩ := completes N _ _ (Inv_run N _ sched hstart) rfl
    exact ⟨more, by rw [run_append]; exact hmore⟩
  · intro sched hd
    obtain ⟨hp, hc⟩ := counts_of_allDone N _ (Inv_run N _ sched hstart) hd
    have e : (List.range' 1 N).map (fun (k : Nat) => wrapInt (k : Int))
        = (List.range' 1 N).map (fun (k : Nat) => (k : Int)) := by
      apply List.map_congr_left
      intro k hk
      have hk2 : k < 1 + N := (List.mem_range'_1.mp hk).2
      exact wrapInt_of_range (k : Int) (by omega) (by omega)
    rw [e] at hp
    refine ⟨hp, ?_, ?_⟩
    · rw [hp.nodup_iff]
      exact (List.nodup_range' 1 N).map Nat.cast_injective
    · rw [hc]
      exact wrapInt_of_range _ (by omega) (by omega)

/-- Witness of C6 at two requests, with one interleaving run: the second
request gets the lock first and is answered `1`, the first waits and is
answered `2`. -/
theorem C6_concurrentCounts_witness :
    2 < 2 ^ 63 ∧ concurrentCounts 2 []
    ∧ ((Server.start (newOk []) 2).run [1, 0, 1, 1, 0, 1, 1, 0, 0, 0, 0, 0]).allDone = true
    ∧ ((Server.start (newOk []) 2).run [1, 0, 1, 1, 0, 1, 1, 0, 0, 0, 0, 0]).counts = [2, 1]
    ∧ ((Server.start (newOk []) 2).run [1, 0, 1, 1, 0, 1, 1, 0, 0, 0, 0, 0]).ok.Count = 2 :=
  ⟨by decide, C6_concurrentCounts 2 [] (by decide), by decide, by decide, by decide⟩

end OkServer
